import Mathlib

set_option maxHeartbeats 1000000

/-!  Verification of the hypersdk mempool coordinator (src/mempool/mempool.go)
against its natural-language specification.

The coordinator `Mempool[T]` is embedded below as pure functions over an
explicit state `MState`.  Items are records of the four accessors the mempool
reads (`id`, `payer`, `unitPrice`, `expiry`); Go's `uint64(...)` conversion of
the signed 64-bit expiry is made explicit through `u64ofInt`.  The
`SortedMempool` priority queue that the coordinator instantiates twice is not
among the sources, so it is modelled from the spec (section 4.1): its state is
a list kept ascending by score (ties keep insertion order, which the spec
leaves unspecified); `pop_extreme` on the max side takes the last element and
on the min side the first; `set_min_val` pops the root while its score is
below the threshold.  -/

/-- An item: the four accessors the mempool reads (spec section 3).  Ids and
payers are abstracted as naturals, `unitPrice` is the uint64 fee score, and
`expiry` is the signed 64-bit millisecond timestamp. -/
structure Item where
  id : Nat
  payer : Nat
  unitPrice : Nat
  expiry : Int
deriving DecidableEq, Repr

/-- Go conversion `uint64(t)` of a signed 64-bit value: the representative of
t modulo 2^64, as used by `New` for the time-queue score and by
`SetMinTimestamp` for the threshold. -/
def u64ofInt (t : Int) : Nat := (t % (2 : Int) ^ 64).toNat

/-- Score of the price queue (mempool.go line 60). -/
def priceScore (x : Item) : Nat := x.unitPrice

/-- Score of the time queue: `uint64(item.Expiry())` (mempool.go line 64). -/
def timeScore (x : Item) : Nat := u64ofInt x.expiry

/-- Modelled from the spec: insertion into the SortedMempool (section 4.1
`add`), on the score-ascending list representation; a new item goes after
existing entries of equal score. -/
def smInsert (score : Item → Nat) (x : Item) : List Item → List Item
  | [] => [x]
  | y :: ys => if score x < score y then x :: y :: ys else y :: smInsert score x ys

/-- Modelled from the spec: the SortedMempool membership test (section 4.1
`has(id)`). -/
def smHas (i : Nat) (l : List Item) : Bool := l.any (fun y => y.id == i)

/-- Modelled from the spec: the SortedMempool removal by id (section 4.1
`remove(id)`, a no-op if absent). -/
def smRemove (i : Nat) (l : List Item) : List Item := l.filter (fun y => y.id != i)

/-- Modelled from the spec: pop of the minimum-score entry (section 4.1
`pop_extreme` on the min orientation): the head of the ascending list. -/
def smPopMin : List Item → Option (Item × List Item)
  | [] => none
  | x :: xs => some (x, xs)

/-- Modelled from the spec: pop of the maximum-score entry (section 4.1
`pop_extreme` on the max orientation): the last of the ascending list. -/
def smPopMax (l : List Item) : Option (Item × List Item) :=
  match l.getLast? with
  | none => none
  | some m => some (m, l.dropLast)

/-- Modelled from the spec: `set_min_val(threshold)` pops the root of the
min-oriented queue while its score is `<` threshold, returning the removed
items in pop order and the remaining queue (section 4.1). -/
def smSetMinVal (score : Item → Nat) (thr : Nat) (l : List Item) :
    List Item × List Item :=
  (l.takeWhile (fun x => score x < thr), l.dropWhile (fun x => score x < thr))

/-- The `owned` map `payer -> set of item ids` (mempool.go line 35), as an
association list; a key being absent and a key holding the empty set are
distinct states, as for a Go map. -/
abbrev Owned := List (Nat × List Nat)

/-- Go map lookup `acct, ok := th.owned[sender]`: the first entry with the
key. -/
def ownedGet : Owned → Nat → Option (List Nat)
  | [], _ => none
  | e :: es, p => if e.1 == p then some e.2 else ownedGet es p

/-- Go map write `th.owned[sender] = acct`: replaces the entry in place, or
appends a fresh one. -/
def ownedSet : Owned → Nat → List Nat → Owned
  | [], p, v => [(p, v)]
  | e :: es, p, v => if e.1 == p then (p, v) :: es else e :: ownedSet es p v

/-- Go map `delete(th.owned, sender)`. -/
def ownedDelete (o : Owned) (p : Nat) : Owned := o.filter (fun e => e.1 != p)

/-- Membership of id `i` in the owned set of payer `p`. -/
def ownedHas (o : Owned) (p i : Nat) : Bool :=
  match ownedGet o p with
  | some a => a.contains i
  | none => false

/-- Go `set.Set.Add`: idempotent insertion of an id. -/
def idsAdd (i : Nat) (s : List Nat) : List Nat := if s.contains i then s else i :: s

/-- The mempool coordinator state (mempool.go lines 21-42): the price queue
`pm`, the time queue `tm`, the `owned` index, the exempt payers fixed at
construction, and the nullable lease set `leasedItems`. -/
structure MState where
  maxSize : Nat
  maxPayerSize : Nat
  pm : List Item
  tm : List Item
  owned : Owned
  exemptPayers : List Nat
  leasedItems : Option (List Nat)
deriving DecidableEq, Repr

/-- The owned-map part of `removeFromOwned` (mempool.go lines 124-135): look
the payer up, return if absent, remove the id, delete the entry when the set
became empty. -/
def rfoOwned (o : Owned) (p i : Nat) : Owned :=
  match ownedGet o p with
  | none => o
  | some acct =>
      let acct2 := acct.filter (fun j => j != i)
      if acct2.isEmpty then ownedDelete o p else ownedSet o p acct2

/-- `removeFromOwned` (mempool.go lines 124-135). -/
def removeFromOwned (s : MState) (x : Item) : MState :=
  { s with owned := rfoOwned s.owned x.payer x.id }

/-- The optimistic owned-set creation of `add` (mempool.go lines 180-184):
when the payer has no entry, an empty set is stored for it. -/
def addPayerInit (s : MState) (p : Nat) : MState :=
  match ownedGet s.owned p with
  | some _ => s
  | none => { s with owned := ownedSet s.owned p [] }

/-- The capacity check at the end of the `add` loop body (mempool.go lines
192-198): if the price queue exceeds `maxSize`, pop its minimum-price entry
and mirror the removal in `tm` and `owned`. -/
def addOneEvict (s2 : MState) : MState :=
  if s2.maxSize < s2.pm.length then
    match smPopMin s2.pm with
    | some r => removeFromOwned { s2 with pm := r.2, tm := smRemove r.1.id s2.tm } r.1
    | none => s2
  else s2

/-- The admission part of the `add` loop body (mempool.go lines 179-198):
create the payer's owned set when absent, skip a non-exempt payer whose set
already has `maxPayerSize` ids, otherwise insert into both queues and the
owned set and run the capacity check. -/
def addOneAdmit (s : MState) (x : Item) : MState :=
  let acct := (ownedGet s.owned x.payer).getD []
  let s1 := addPayerInit s x.payer
  if !s.exemptPayers.contains x.payer && (acct.length == s.maxPayerSize) then s1
  else
    addOneEvict { s1 with
      pm := smInsert priceScore x s1.pm
      tm := smInsert timeScore x s1.tm
      owned := ownedSet s1.owned x.payer (idsAdd x.id acct) }

/-- One iteration of the `add` loop body (mempool.go lines 166-199): skip a
leased or duplicate id, otherwise admit. -/
def addOne (s : MState) (x : Item) : MState :=
  if (s.leasedItems.getD []).contains x.id then s
  else if smHas x.id s.pm then s
  else addOneAdmit s x

/-- `Add` / internal `add` (mempool.go lines 151-200): the loop over the
input sequence. -/
def madd (s : MState) (xs : List Item) : MState := xs.foldl addOne s

/-- Whether processing item `x` in state `s` reaches the eviction branch of
`add` (mempool.go lines 193-198): the item is admitted and the insertion
pushes the price queue above `maxSize`. -/
def addOneEvicts (s : MState) (x : Item) : Bool :=
  !(s.leasedItems.getD []).contains x.id &&
  !smHas x.id s.pm &&
  (s.exemptPayers.contains x.payer ||
    !(((ownedGet s.owned x.payer).getD []).length == s.maxPayerSize)) &&
  (s.maxSize < s.pm.length + 1)

/-- Whether an entire `add(xs)` run from `s` never takes the eviction
branch. -/
def addEvictFree : MState → List Item → Bool
  | _, [] => true
  | s, x :: rest => !addOneEvicts s x && addEvictFree (addOne s x) rest

/-- One iteration of the `Remove` loop body (mempool.go lines 272-278):
remove the id from both queues and from the payer index. -/
def mRemoveOne (s : MState) (x : Item) : MState :=
  removeFromOwned { s with pm := smRemove x.id s.pm, tm := smRemove x.id s.tm } x

/-- `Remove` (mempool.go lines 265-279). -/
def mRemove (s : MState) (xs : List Item) : MState := xs.foldl mRemoveOne s

/-- `PopMax` / internal `popMax` (mempool.go lines 228-245): pop the top of
the price queue and, on success, mirror the removal in `tm` and `owned`.  Go
returns the zero value of `T` together with `false` on an empty mempool; the
pair is modelled as `Option Item`. -/
def mPopMax (s : MState) : Option Item × MState :=
  match smPopMax s.pm with
  | none => (none, s)
  | some r => (some r.1, removeFromOwned { s with pm := r.2, tm := smRemove r.1.id s.tm } r.1)

/-- `PopMin` (mempool.go lines 249-262). -/
def mPopMin (s : MState) : Option Item × MState :=
  match smPopMin s.pm with
  | none => (none, s)
  | some r => (some r.1, removeFromOwned { s with pm := r.2, tm := smRemove r.1.id s.tm } r.1)

/-- `PeekMax` (mempool.go lines 204-212). -/
def mPeekMax (s : MState) : Option Item := (smPopMax s.pm).map (fun r => r.1)

/-- `Has` (mempool.go lines 138-145): membership in the price queue. -/
def mHas (s : MState) (i : Nat) : Bool := smHas i s.pm

/-- `Len` (mempool.go lines 282-290): the length of the price queue. -/
def mLen (s : MState) : Nat := s.pm.length

/-- `removeAccount` (mempool.go lines 303-313): remove each id owned by the
payer from both queues, then delete the payer's entry. -/
def mRemoveAccount (s : MState) (p : Nat) : MState :=
  match ownedGet s.owned p with
  | none => s
  | some acct =>
      let s1 := acct.foldl
        (fun t i => { t with pm := smRemove i t.pm, tm := smRemove i t.tm }) s
      { s1 with owned := ownedDelete s1.owned p }

/-- `SetMinTimestamp` (mempool.go lines 317-335): sweep
`tm.SetMinVal(uint64(t))`, then remove each returned item from the price
queue and the payer index; the removed items are returned to the caller. -/
def mSetMinTimestamp (s : MState) (t : Int) : List Item × MState :=
  let r := smSetMinVal timeScore (u64ofInt t) s.tm
  let s1 := r.1.foldl
    (fun u x => removeFromOwned { u with pm := smRemove x.id u.pm } x)
    { s with tm := r.2 }
  (r.1, s1)

/-- The verdict of the `Build` callback (mempool.go line 345): continue,
restore, remove-account, and whether a non-nil error was returned. -/
structure Verdict where
  cont : Bool
  restore : Bool
  removeAcct : Bool
  err : Bool
deriving DecidableEq, Repr

/-- The `Build` iteration loop (mempool.go lines 359-383), instrumented with
the accumulated `restorableItems` and the trace of popped items.  Each
iteration pops the price-queue maximum, asks the callback for a verdict,
keeps a restored item in `tm` and `owned` while a consumed one is removed
from both, runs `removeAccount` when requested, and stops on `!cont` or an
error.  The fuel is an upper bound on the iterations; the caller passes the
price-queue length, which suffices because every iteration shrinks it. -/
def buildLoop (f : Item → Verdict) :
    Nat → MState → List Item → List Item → MState × List Item × List Item × Bool
  | 0, s, restorable, trace => (s, restorable, trace, false)
  | fuel + 1, s, restorable, trace =>
    match smPopMax s.pm with
    | none => (s, restorable, trace, false)
    | some r =>
        let v := f r.1
        let s1 : MState := { s with pm := r.2 }
        let s2 : MState :=
          if v.restore then s1
          else removeFromOwned { s1 with tm := smRemove r.1.id s1.tm } r.1
        let restorable2 := if v.restore then restorable ++ [r.1] else restorable
        let s3 := if v.removeAcct then mRemoveAccount s2 r.1.payer else s2
        if !v.cont || v.err then (s3, restorable2, trace ++ [r.1], v.err)
        else buildLoop f fuel s3 restorable2 (trace ++ [r.1])

/-- `Build` (mempool.go lines 343-390), returning the final state, the
restored items, the trace of items handed to the callback, and the error
flag.  After the loop every restorable item is re-inserted into the price
queue only. -/
def mBuildFull (s : MState) (f : Item → Verdict) :
    MState × List Item × List Item × Bool :=
  let r := buildLoop f s.pm.length s [] []
  ({ r.1 with pm := r.2.1.foldl (fun l x => smInsert priceScore x l) r.1.pm },
   r.2.1, r.2.2.1, r.2.2.2)

/-- The lease loop of `LeaseItems` (mempool.go lines 401-408): pop up to
`count` maxima, collecting the items and their ids. -/
def leaseLoop : Nat → MState → List Item → List Nat → MState × List Item × List Nat
  | 0, s, txs, lease => (s, txs, lease)
  | n + 1, s, txs, lease =>
    match mPopMax s with
    | (none, s1) => (s1, txs, lease)
    | (some x, s1) => leaseLoop n s1 (txs ++ [x]) (lease ++ [x.id])

/-- `LeaseItems` (mempool.go lines 392-410): unconditionally allocate a fresh
lease set, pop up to `count` max-price items, record their ids in the lease
set, and return them. -/
def mLeaseItems (s : MState) (count : Nat) : List Item × MState :=
  let r := leaseLoop count { s with leasedItems := some [] } [] []
  (r.2.1, { r.1 with leasedItems := some r.2.2 })

/-- `ClearLease` (mempool.go lines 412-422): null the lease set, then run the
full admission routine on the items to restore. -/
def mClearLease (s : MState) (restore : List Item) : MState :=
  madd { s with leasedItems := none } restore

/-- Invariant: the two queues agree on membership (spec invariant 1,
projected on the two queues). -/
def sameIdsOK (s : MState) : Prop :=
  (∀ x ∈ s.tm, smHas x.id s.pm = true) ∧ (∀ x ∈ s.pm, smHas x.id s.tm = true)

/-- Invariant: every id recorded in the payer index is in the price queue
(one direction of spec invariant 1). -/
def ownedSubOK (s : MState) : Prop :=
  ∀ e ∈ s.owned, ∀ i ∈ e.2, smHas i s.pm = true

/-- Invariant: every price-queue item is recorded under its payer in the
payer index (the other direction of spec invariant 1). -/
def pmOwnedOK (s : MState) : Prop :=
  ∀ x ∈ s.pm, ownedHas s.owned x.payer x.id = true

/-- Invariant: owned hygiene — every present owned set is non-empty (spec
invariant 6). -/
def hygOK (s : MState) : Prop := ∀ e ∈ s.owned, e.2 ≠ []

/-- Invariant: the per-payer cap — every non-exempt payer owns at most
`maxPayerSize` ids (spec invariant 3). -/
def capOK (s : MState) : Prop :=
  ∀ e ∈ s.owned, s.exemptPayers.contains e.1 = false → e.2.length ≤ s.maxPayerSize

/-- Invariant: lease disjointness — no leased id is in the price queue (spec
invariant 5). -/
def leaseOK (s : MState) : Prop :=
  ∀ i ∈ s.leasedItems.getD [], smHas i s.pm = false

/-- Invariant: no two price-queue entries share an id (spec invariant 4). -/
def pmNodupOK (s : MState) : Prop := (s.pm.map Item.id).Nodup

instance (s : MState) : Decidable (sameIdsOK s) := by
  unfold sameIdsOK
  infer_instance

instance (s : MState) : Decidable (ownedSubOK s) := by
  unfold ownedSubOK
  infer_instance

instance (s : MState) : Decidable (pmOwnedOK s) := by
  unfold pmOwnedOK
  infer_instance

instance (s : MState) : Decidable (hygOK s) := by
  unfold hygOK
  infer_instance

instance (s : MState) : Decidable (capOK s) := by
  unfold capOK
  infer_instance

instance (s : MState) : Decidable (leaseOK s) := by
  unfold leaseOK
  infer_instance

instance (s : MState) : Decidable (pmNodupOK s) := by
  unfold pmNodupOK
  infer_instance

/-! Concrete states used by the claim theorems. -/

/-- A resident item for the Build restore/removeAccount scenario. -/
def bldItem : Item := ⟨1, 5, 10, 100⟩

/-- A consistent one-item mempool holding `bldItem`. -/
def bldS : MState := ⟨10, 5, [bldItem], [bldItem], [(5, [1])], [], none⟩

/-- A callback answering restore=true and removeAccount=true. -/
def bldF : Item → Verdict := fun _ => ⟨true, true, true, false⟩

/-- An item whose expiry is the negative timestamp -1. -/
def negItem : Item := ⟨1, 2, 5, -1⟩

/-- A consistent one-item mempool holding `negItem`. -/
def negS : MState := ⟨10, 5, [negItem], [negItem], [(2, [1])], [], none⟩

/-- A resident item for the lease scenario. -/
def lsItem : Item := ⟨3, 4, 9, 50⟩

/-- A mempool with an outstanding lease on id 7 and `lsItem` resident. -/
def lsS : MState := ⟨10, 5, [lsItem], [lsItem], [(4, [3])], [], some [7]⟩

/-- Scenario S1: two items sharing id 1; the first has price 7. -/
def dupA7 : Item := ⟨1, 2, 7, 100⟩

/-- Scenario S1: the later, higher-priced duplicate. -/
def dupA9 : Item := ⟨1, 2, 9, 200⟩

/-- Scenario S1: the fresh mempool `new(max=10, payer_max=5)`. -/
def dupS : MState := ⟨10, 5, [], [], [], [], none⟩

/-- A resident price-5 item for the capacity-eviction scenario. -/
def capResident : Item := ⟨1, 2, 5, 100⟩

/-- A price-3 newcomer that is itself the lowest-paying. -/
def capLow : Item := ⟨2, 3, 3, 100⟩

/-- A full (`maxSize = 1`) mempool holding `capResident`. -/
def capS : MState := ⟨1, 5, [capResident], [capResident], [(2, [1])], [], none⟩

/-- An empty mempool with a non-trivial lease set, for the empty-pop claim. -/
def empS : MState := ⟨5, 5, [], [], [], [], some [9]⟩

/-! Basic lemmas about the queue and owned-map operations. -/

theorem smInsert_length (sc : Item → Nat) (x : Item) (l : List Item) :
    (smInsert sc x l).length = l.length + 1 := by
  induction l with
  | nil => rfl
  | cons y ys ih =>
      unfold smInsert
      split
      · rfl
      · simpa using ih

theorem smInsert_ne_nil (sc : Item → Nat) (x : Item) (l : List Item) :
    smInsert sc x l ≠ [] := by
  have h := smInsert_length sc x l
  intro hc
  rw [hc] at h
  simp at h

theorem smPopMin_some_length {l : List Item} {r : Item × List Item}
    (h : smPopMin l = some r) : r.2.length + 1 = l.length := by
  cases l with
  | nil => simp [smPopMin] at h
  | cons y ys =>
      have hr : (y, ys) = r := by simpa [smPopMin] using h
      rw [← hr]
      rfl

theorem mem_ownedSet {o : Owned} {p : Nat} {v : List Nat} {e : Nat × List Nat}
    (h : e ∈ ownedSet o p v) : e = (p, v) ∨ e ∈ o := by
  induction o with
  | nil => simpa [ownedSet] using h
  | cons a as ih =>
      unfold ownedSet at h
      split at h
      · rw [List.mem_cons] at h
        rcases h with h | h
        · exact Or.inl h
        · exact Or.inr (List.mem_cons_of_mem _ h)
      · rw [List.mem_cons] at h
        rcases h with h | h
        · exact Or.inr (by simp [h])
        · rcases ih h with h2 | h2
          · exact Or.inl h2
          · exact Or.inr (List.mem_cons_of_mem _ h2)

theorem ownedGet_mem {o : Owned} {p : Nat} {a : List Nat}
    (h : ownedGet o p = some a) : (p, a) ∈ o := by
  induction o with
  | nil => simp [ownedGet] at h
  | cons e es ih =>
      unfold ownedGet at h
      split at h
      · rename_i hep
        have h1 : e.1 = p := by simpa using hep
        have h2 : e.2 = a := by
          injection h
        have : e = (p, a) := by
          cases e
          cases h1
          cases h2
          rfl
        rw [← this]
        exact List.mem_cons_self e es
      · exact List.mem_cons_of_mem _ (ih h)

theorem ownedSet_ownedSet (o : Owned) (p : Nat) (v w : List Nat) :
    ownedSet (ownedSet o p v) p w = ownedSet o p w := by
  induction o with
  | nil => simp [ownedSet]
  | cons a as ih =>
      by_cases hap : a.1 = p
      · simp [ownedSet, hap]
      · simp [ownedSet, hap, ih]

theorem idsAdd_ne_nil (i : Nat) (s : List Nat) : idsAdd i s ≠ [] := by
  unfold idsAdd
  split
  · rename_i h
    intro hc
    rw [hc] at h
    simp at h
  · simp

/-! ### Claim C1 -/

/-- C1: the symmetric population invariant is claimed to hold after `Build`
for every combination of callback verdicts, including restore=true together
with remove_account=true for the same item.  The code violates it there: on
the one-item mempool `bldS`, a callback answering restore=true and
remove_account=true leaves the item's id in the price queue while it is
gone from the time queue and from the payer index. -/
theorem C1_build_restore_remove_account_breaks_symmetric_population :
    smHas bldItem.id (mBuildFull bldS bldF).1.pm = true ∧
    smHas bldItem.id (mBuildFull bldS bldF).1.tm = false ∧
    ownedGet (mBuildFull bldS bldF).1.owned bldItem.payer = none := by
  decide

/-! ### Claim C2 -/

/-- C2: `SetMinTimestamp` is claimed to evict every item with expiry below
the timestamp, also for negative values.  The code casts both sides to
uint64, so on the mempool `negS` holding an item with expiry -1, the call
`SetMinTimestamp 5` removes nothing and returns nothing, although the
resident item's expiry -1 is below the timestamp 5. -/
theorem C2_set_min_timestamp_negative_expiry_survives :
    mSetMinTimestamp negS 5 = ([], negS) ∧
    negItem.expiry < 5 ∧
    mHas negS negItem.id = true := by
  decide

/-! ### Claim C3 -/

/-- C3 counterexample: `LeaseItems` is claimed to require a null lease at
entry, failing fatally otherwise.  On the mempool `lsS`, whose lease set is
the outstanding `some [7]`, `LeaseItems 1` instead returns normally and
silently starts a new lease over the old one: the new lease set is
`some [3]` and the previously leased id 7 is no longer recorded. -/
theorem C3_counterexample_lease_items_succeeds_while_leased :
    lsS.leasedItems = some [7] ∧
    (mLeaseItems lsS 1).2.leasedItems = some [3] ∧
    ((mLeaseItems lsS 1).2.leasedItems.getD []).contains 7 = false := by
  decide

theorem leaseLoop_lease_eq_ids (n : Nat) :
    ∀ (s : MState) (txs : List Item),
      (leaseLoop n s txs (txs.map Item.id)).2.2 =
        (leaseLoop n s txs (txs.map Item.id)).2.1.map Item.id := by
  induction n with
  | zero => intro s txs; rfl
  | succ n ih =>
      intro s txs
      unfold leaseLoop
      cases hp : mPopMax s with
      | mk ox s1 =>
          cases ox with
          | none => rfl
          | some x =>
              have hmap : (txs ++ [x]).map Item.id = txs.map Item.id ++ [x.id] := by
                simp
              simp only []
              rw [← hmap]
              exact ih s1 (txs ++ [x])

/-- C3 amended: `LeaseItems` does not require the lease to be null; whatever
the previous lease set was, it unconditionally allocates a fresh one holding
exactly the ids of the items it returns. -/
theorem C3_lease_items_overwrites_lease (s : MState) (count : Nat) :
    (mLeaseItems s count).2.leasedItems =
      some ((mLeaseItems s count).1.map Item.id) := by
  unfold mLeaseItems
  simp only []
  have h := leaseLoop_lease_eq_ids count { s with leasedItems := some [] } []
  simpa using h

/-! ### Claim C6 -/

/-- C6: adding an item whose id is already resident is a silent no-op that
never displaces the resident item; on the fresh mempool of scenario S1,
adding the price-7 and price-9 items that share id 1 leaves one item, with
the price-7 item at the top (first wins). -/
theorem C6_duplicate_add_is_noop (s : MState) (x : Item)
    (h : mHas s x.id = true) :
    madd s [x] = s ∧
    mLen (madd dupS [dupA7, dupA9]) = 1 ∧
    mPeekMax (madd dupS [dupA7, dupA9]) = some dupA7 := by
  refine ⟨?_, by decide, by decide⟩
  show addOne s x = s
  have h2 : smHas x.id s.pm = true := h
  unfold addOne
  split
  · rfl
  · simp [h2]

/-- Witness for C6 at a concrete input: the mempool already holding the
price-7 item of scenario S1 and the duplicate price-9 item. -/
theorem C6_duplicate_add_is_noop_witness :
    mHas (madd dupS [dupA7]) dupA9.id = true ∧
    (madd (madd dupS [dupA7]) [dupA9] = madd dupS [dupA7] ∧
      mLen (madd dupS [dupA7, dupA9]) = 1 ∧
      mPeekMax (madd dupS [dupA7, dupA9]) = some dupA7) :=
  ⟨by decide, C6_duplicate_add_is_noop (madd dupS [dupA7]) dupA9 (by decide)⟩

/-! ### Claim C10 -/

/-- C10: `PopMax` and `PopMin` on an empty mempool return the no-item signal
(Go's zero value together with false, modelled as `none`) and leave the
whole state — both queues, the payer index and the lease set — unchanged. -/
theorem C10_pop_on_empty_returns_none_and_preserves_state (s : MState)
    (h : s.pm = []) :
    mPopMax s = (none, s) ∧ mPopMin s = (none, s) := by
  constructor
  · unfold mPopMax smPopMax
    rw [h]
    rfl
  · unfold mPopMin smPopMin
    rw [h]

/-- Witness for C10 at a concrete input: an empty mempool that still carries
a lease set. -/
theorem C10_pop_on_empty_witness :
    empS.pm = [] ∧ (mPopMax empS = (none, empS) ∧ mPopMin empS = (none, empS)) :=
  ⟨by decide, C10_pop_on_empty_returns_none_and_preserves_state empS (by decide)⟩

/-! Field-preservation lemmas for the `add` path. -/

theorem addPayerInit_fields (s : MState) (p : Nat) :
    (addPayerInit s p).pm = s.pm ∧ (addPayerInit s p).tm = s.tm ∧
    (addPayerInit s p).maxSize = s.maxSize ∧
    (addPayerInit s p).maxPayerSize = s.maxPayerSize ∧
    (addPayerInit s p).exemptPayers = s.exemptPayers ∧
    (addPayerInit s p).leasedItems = s.leasedItems := by
  unfold addPayerInit
  split <;> exact ⟨rfl, rfl, rfl, rfl, rfl, rfl⟩

theorem addOneEvict_fields (t : MState) :
    (addOneEvict t).maxSize = t.maxSize ∧
    (addOneEvict t).maxPayerSize = t.maxPayerSize ∧
    (addOneEvict t).exemptPayers = t.exemptPayers ∧
    (addOneEvict t).leasedItems = t.leasedItems := by
  unfold addOneEvict removeFromOwned
  split
  · split <;> exact ⟨rfl, rfl, rfl, rfl⟩
  · exact ⟨rfl, rfl, rfl, rfl⟩

theorem addOneEvict_len (t : MState) (M : Nat) (hM : t.maxSize = M)
    (h : t.pm.length ≤ M + 1) : (addOneEvict t).pm.length ≤ M := by
  unfold addOneEvict
  split
  · rename_i hgt
    split
    · rename_i r heq
      have hl := smPopMin_some_length heq
      simp only [removeFromOwned]
      rw [hM] at hgt
      omega
    · rename_i heq
      cases hpm : t.pm with
      | nil =>
          rw [hpm] at hgt
          simp at hgt
      | cons a as =>
          rw [hpm] at heq
          simp [smPopMin] at heq
  · rename_i hle
    rw [hM] at hle
    omega

theorem addOneAdmit_len (s : MState) (x : Item) (h : s.pm.length ≤ s.maxSize) :
    (addOneAdmit s x).pm.length ≤ s.maxSize := by
  unfold addOneAdmit
  dsimp only []
  split
  · rw [(addPayerInit_fields s x.payer).1]
    exact h
  · refine addOneEvict_len _ _ ((addPayerInit_fields s x.payer).2.2.1) ?_
    show (smInsert priceScore x (addPayerInit s x.payer).pm).length ≤ s.maxSize + 1
    rw [smInsert_length, (addPayerInit_fields s x.payer).1]
    omega

theorem addOneAdmit_maxSize (s : MState) (x : Item) :
    (addOneAdmit s x).maxSize = s.maxSize := by
  unfold addOneAdmit
  dsimp only []
  split
  · exact (addPayerInit_fields s x.payer).2.2.1
  · rw [(addOneEvict_fields _).1]
    exact (addPayerInit_fields s x.payer).2.2.1

theorem addOne_maxSize (s : MState) (x : Item) :
    (addOne s x).maxSize = s.maxSize := by
  unfold addOne
  split
  · rfl
  · split
    · rfl
    · exact addOneAdmit_maxSize s x

theorem addOne_len (s : MState) (x : Item) (h : s.pm.length ≤ s.maxSize) :
    (addOne s x).pm.length ≤ s.maxSize := by
  unfold addOne
  split
  · exact h
  · split
    · exact h
    · exact addOneAdmit_len s x h

theorem madd_maxSize : ∀ (xs : List Item) (s : MState),
    (madd s xs).maxSize = s.maxSize := by
  intro xs
  induction xs with
  | nil => intro s; rfl
  | cons x rest ih =>
      intro s
      show (madd (addOne s x) rest).maxSize = s.maxSize
      rw [ih (addOne s x), addOne_maxSize]

theorem madd_len : ∀ (xs : List Item) (s : MState),
    s.pm.length ≤ s.maxSize → (madd s xs).pm.length ≤ s.maxSize := by
  intro xs
  induction xs with
  | nil => intro s h; exact h
  | cons x rest ih =>
      intro s h
      show (madd (addOne s x) rest).pm.length ≤ s.maxSize
      have h1 : (addOne s x).pm.length ≤ (addOne s x).maxSize := by
        rw [addOne_maxSize]
        exact addOne_len s x h
      have := ih (addOne s x) h1
      rwa [addOne_maxSize] at this

/-! ### Claim C4 -/

/-- C4: the capacity invariant — starting from a state within capacity,
after every `Add` the price queue holds at most `maxSize` items; whenever an
insertion exceeds `maxSize` the minimum-price entry is popped and mirrored
out of `tm` and `owned`, which may evict the item just admitted: on the full
mempool `capS`, adding the lowest-paying `capLow` restores the state exactly
and `capLow` is not resident. -/
theorem C4_capacity_invariant (s : MState) (xs : List Item)
    (h : mLen s ≤ s.maxSize) :
    mLen (madd s xs) ≤ (madd s xs).maxSize ∧
    madd capS [capLow] = capS ∧
    mHas (madd capS [capLow]) capLow.id = false := by
  refine ⟨?_, by decide, by decide⟩
  show (madd s xs).pm.length ≤ (madd s xs).maxSize
  rw [madd_maxSize]
  exact madd_len xs s h

/-- Witness for C4 at a concrete input: the fresh mempool of scenario S1 and
a single item. -/
theorem C4_capacity_invariant_witness :
    mLen dupS ≤ dupS.maxSize ∧
    (mLen (madd dupS [dupA7]) ≤ (madd dupS [dupA7]).maxSize ∧
      madd capS [capLow] = capS ∧
      mHas (madd capS [capLow]) capLow.id = false) :=
  ⟨by decide, C4_capacity_invariant dupS [dupA7] (by decide)⟩

/-! Preservation machinery shared by the per-payer-cap and owned-hygiene
claims. -/

theorem idsAdd_length (i : Nat) (s : List Nat) :
    (idsAdd i s).length ≤ s.length + 1 := by
  unfold idsAdd
  split
  · omega
  · simp

theorem foldl_preserves {α : Type} (P : MState → Prop) (g : MState → α → MState)
    (hg : ∀ t a, P t → P (g t a)) :
    ∀ (l : List α) (t : MState), P t → P (List.foldl g t l) := by
  intro l
  induction l with
  | nil => intro t h; exact h
  | cons a as ih => intro t h; exact ih (g t a) (hg t a h)

theorem mstate_ite (P : MState → Prop) (c : Prop) [Decidable c] (a b : MState)
    (ha : P a) (hb : P b) : P (if c then a else b) := by
  split
  · exact ha
  · exact hb

theorem capO_rfo (ex : List Nat) (mp : Nat) (o : Owned) (p i : Nat)
    (h : ∀ e ∈ o, ex.contains e.1 = false → e.2.length ≤ mp) :
    ∀ e ∈ rfoOwned o p i, ex.contains e.1 = false → e.2.length ≤ mp := by
  intro e he hex
  unfold rfoOwned at he
  cases hget : ownedGet o p with
  | none =>
      rw [hget] at he
      exact h e he hex
  | some acct =>
      rw [hget] at he
      dsimp only [] at he
      split at he
      · exact h e (List.mem_of_mem_filter he) hex
      · rcases mem_ownedSet he with rfl | hmem
        · dsimp only []
          calc (acct.filter (fun j => j != i)).length
              ≤ acct.length := List.length_filter_le _ _
            _ ≤ mp := h (p, acct) (ownedGet_mem hget) hex
        · exact h e hmem hex

theorem hygO_rfo (o : Owned) (p i : Nat) (h : ∀ e ∈ o, e.2 ≠ []) :
    ∀ e ∈ rfoOwned o p i, e.2 ≠ [] := by
  intro e he
  unfold rfoOwned at he
  cases hget : ownedGet o p with
  | none =>
      rw [hget] at he
      exact h e he
  | some acct =>
      rw [hget] at he
      dsimp only [] at he
      split at he
      · exact h e (List.mem_of_mem_filter he)
      · rename_i hne
        rcases mem_ownedSet he with rfl | hmem
        · dsimp only []
          intro hc
          rw [hc] at hne
          simp at hne
        · exact h e hmem

theorem capOK_removeFromOwned (t : MState) (x : Item) (h : capOK t) :
    capOK (removeFromOwned t x) :=
  capO_rfo t.exemptPayers t.maxPayerSize t.owned x.payer x.id h

theorem hygOK_removeFromOwned (t : MState) (x : Item) (h : hygOK t) :
    hygOK (removeFromOwned t x) :=
  hygO_rfo t.owned x.payer x.id h

theorem rmAcctFold_fields (acct : List Nat) : ∀ s : MState,
    (acct.foldl (fun t i => { t with pm := smRemove i t.pm, tm := smRemove i t.tm }) s).owned
        = s.owned ∧
    (acct.foldl (fun t i => { t with pm := smRemove i t.pm, tm := smRemove i t.tm }) s).exemptPayers
        = s.exemptPayers ∧
    (acct.foldl (fun t i => { t with pm := smRemove i t.pm, tm := smRemove i t.tm }) s).maxPayerSize
        = s.maxPayerSize ∧
    (acct.foldl (fun t i => { t with pm := smRemove i t.pm, tm := smRemove i t.tm }) s).leasedItems
        = s.leasedItems ∧
    (acct.foldl (fun t i => { t with pm := smRemove i t.pm, tm := smRemove i t.tm }) s).maxSize
        = s.maxSize := by
  induction acct with
  | nil => intro s; exact ⟨rfl, rfl, rfl, rfl, rfl⟩
  | cons a as ih =>
      intro s
      exact ih { s with pm := smRemove a s.pm, tm := smRemove a s.tm }

theorem capO_delete (ex : List Nat) (mp : Nat) (o : Owned) (p : Nat)
    (h : ∀ e ∈ o, ex.contains e.1 = false → e.2.length ≤ mp) :
    ∀ e ∈ ownedDelete o p, ex.contains e.1 = false → e.2.length ≤ mp :=
  fun e he hex => h e (List.mem_of_mem_filter he) hex

theorem hygO_delete (o : Owned) (p : Nat) (h : ∀ e ∈ o, e.2 ≠ []) :
    ∀ e ∈ ownedDelete o p, e.2 ≠ [] :=
  fun e he => h e (List.mem_of_mem_filter he)

theorem capOK_mRemoveAccount (s : MState) (p : Nat) (h : capOK s) :
    capOK (mRemoveAccount s p) := by
  unfold mRemoveAccount
  cases hget : ownedGet s.owned p with
  | none => exact h
  | some acct =>
      dsimp only []
      intro e he hex
      have hf := rmAcctFold_fields acct s
      rw [hf.1] at he
      rw [hf.2.1] at hex
      rw [hf.2.2.1]
      exact capO_delete s.exemptPayers s.maxPayerSize s.owned p h e he hex

theorem hygOK_mRemoveAccount (s : MState) (p : Nat) (h : hygOK s) :
    hygOK (mRemoveAccount s p) := by
  unfold mRemoveAccount
  cases hget : ownedGet s.owned p with
  | none => exact h
  | some acct =>
      dsimp only []
      intro e he
      have hf := rmAcctFold_fields acct s
      rw [hf.1] at he
      exact hygO_delete s.owned p h e he

theorem capOK_addOneEvict (t : MState) (h : capOK t) : capOK (addOneEvict t) := by
  unfold addOneEvict
  split
  · split
    · exact capOK_removeFromOwned _ _ h
    · exact h
  · exact h

theorem hygOK_addOneEvict (t : MState) (h : hygOK t) : hygOK (addOneEvict t) := by
  unfold addOneEvict
  split
  · split
    · exact hygOK_removeFromOwned _ _ h
    · exact h
  · exact h

theorem capOK_addOne (s : MState) (x : Item) (h : capOK s) : capOK (addOne s x) := by
  unfold addOne
  split
  · exact h
  split
  · exact h
  unfold addOneAdmit addPayerInit
  cases hget : ownedGet s.owned x.payer with
  | some acct0 =>
      dsimp only [Option.getD]
      split
      · exact h
      · rename_i hskip
        apply capOK_addOneEvict
        intro e he hex
        rcases mem_ownedSet he with rfl | hmem
        · dsimp only []
          by_cases hexp : s.exemptPayers.contains x.payer = true
          · rw [hexp] at hex
            simp at hex
          · have hex2 : s.exemptPayers.contains x.payer = false := by
              simpa using hexp
            simp only [hex2, Bool.not_false, Bool.true_and] at hskip
            have hlt : acct0.length < s.maxPayerSize := by
              have hle : acct0.length ≤ s.maxPayerSize :=
                h (x.payer, acct0) (ownedGet_mem hget) hex2
              have hne : acct0.length ≠ s.maxPayerSize := by
                intro hc
                exact hskip (by simp [hc])
              omega
            have hil := idsAdd_length x.id acct0
            show (idsAdd x.id acct0).length ≤ s.maxPayerSize
            omega
        · exact h e hmem hex
  | none =>
      dsimp only [Option.getD]
      split
      · intro e he hex
        rcases mem_ownedSet he with rfl | hmem
        · simp
        · exact h e hmem hex
      · rename_i hskip
        apply capOK_addOneEvict
        rw [ownedSet_ownedSet]
        intro e he hex
        rcases mem_ownedSet he with rfl | hmem
        · dsimp only []
          by_cases hexp : s.exemptPayers.contains x.payer = true
          · rw [hexp] at hex
            simp at hex
          · have hex2 : s.exemptPayers.contains x.payer = false := by
              simpa using hexp
            simp only [hex2, Bool.not_false, Bool.true_and, List.length_nil] at hskip
            have hmp : s.maxPayerSize ≠ 0 := by
              intro hc
              exact hskip (by simp [hc])
            have : (idsAdd x.id []).length = 1 := by rfl
            omega
        · exact h e hmem hex

theorem hygOK_addOne (s : MState) (x : Item) (hmp : 1 ≤ s.maxPayerSize)
    (h : hygOK s) : hygOK (addOne s x) := by
  unfold addOne
  split
  · exact h
  split
  · exact h
  unfold addOneAdmit addPayerInit
  cases hget : ownedGet s.owned x.payer with
  | some acct0 =>
      dsimp only [Option.getD]
      split
      · exact h
      · apply hygOK_addOneEvict
        intro e he
        rcases mem_ownedSet he with rfl | hmem
        · exact idsAdd_ne_nil x.id acct0
        · exact h e hmem
  | none =>
      dsimp only [Option.getD]
      split
      · rename_i hskip
        simp only [List.length_nil, Bool.and_eq_true, beq_iff_eq] at hskip
        omega
      · apply hygOK_addOneEvict
        rw [ownedSet_ownedSet]
        intro e he
        rcases mem_ownedSet he with rfl | hmem
        · exact idsAdd_ne_nil x.id []
        · exact h e hmem

theorem addOneAdmit_fields (s : MState) (x : Item) :
    (addOneAdmit s x).maxPayerSize = s.maxPayerSize ∧
    (addOneAdmit s x).exemptPayers = s.exemptPayers ∧
    (addOneAdmit s x).leasedItems = s.leasedItems := by
  unfold addOneAdmit
  dsimp only []
  split
  · have hf := addPayerInit_fields s x.payer
    exact ⟨hf.2.2.2.1, hf.2.2.2.2.1, hf.2.2.2.2.2⟩
  · refine ⟨?_, ?_, ?_⟩
    · rw [(addOneEvict_fields _).2.1]
      exact (addPayerInit_fields s x.payer).2.2.2.1
    · rw [(addOneEvict_fields _).2.2.1]
      exact (addPayerInit_fields s x.payer).2.2.2.2.1
    · rw [(addOneEvict_fields _).2.2.2]
      exact (addPayerInit_fields s x.payer).2.2.2.2.2

theorem addOne_maxPayerSize (s : MState) (x : Item) :
    (addOne s x).maxPayerSize = s.maxPayerSize := by
  unfold addOne
  split
  · rfl
  · split
    · rfl
    · exact (addOneAdmit_fields s x).1

theorem capOK_madd (s : MState) (xs : List Item) (h : capOK s) :
    capOK (madd s xs) :=
  foldl_preserves capOK addOne capOK_addOne xs s h

theorem hygOK_madd (s : MState) (xs : List Item) (hmp : 1 ≤ s.maxPayerSize)
    (h : hygOK s) : hygOK (madd s xs) := by
  have := foldl_preserves (fun t => hygOK t ∧ 1 ≤ t.maxPayerSize) addOne
    (fun t a ht => ⟨hygOK_addOne t a ht.2 ht.1, by rw [addOne_maxPayerSize]; exact ht.2⟩)
    xs s ⟨h, hmp⟩
  exact this.1

theorem capOK_mRemoveOne (t : MState) (x : Item) (h : capOK t) :
    capOK (mRemoveOne t x) := by
  unfold mRemoveOne
  exact capOK_removeFromOwned _ _ h

theorem hygOK_mRemoveOne (t : MState) (x : Item) (h : hygOK t) :
    hygOK (mRemoveOne t x) := by
  unfold mRemoveOne
  exact hygOK_removeFromOwned _ _ h

theorem capOK_mRemove (s : MState) (xs : List Item) (h : capOK s) :
    capOK (mRemove s xs) :=
  foldl_preserves capOK mRemoveOne capOK_mRemoveOne xs s h

theorem hygOK_mRemove (s : MState) (xs : List Item) (h : hygOK s) :
    hygOK (mRemove s xs) :=
  foldl_preserves hygOK mRemoveOne hygOK_mRemoveOne xs s h

theorem capOK_mPopMax (s : MState) (h : capOK s) : capOK (mPopMax s).2 := by
  unfold mPopMax
  split
  · exact h
  · exact capOK_removeFromOwned _ _ h

theorem hygOK_mPopMax (s : MState) (h : hygOK s) : hygOK (mPopMax s).2 := by
  unfold mPopMax
  split
  · exact h
  · exact hygOK_removeFromOwned _ _ h

theorem capOK_mPopMin (s : MState) (h : capOK s) : capOK (mPopMin s).2 := by
  unfold mPopMin
  split
  · exact h
  · exact capOK_removeFromOwned _ _ h

theorem hygOK_mPopMin (s : MState) (h : hygOK s) : hygOK (mPopMin s).2 := by
  unfold mPopMin
  split
  · exact h
  · exact hygOK_removeFromOwned _ _ h

theorem capOK_mSetMinTimestamp (s : MState) (t : Int) (h : capOK s) :
    capOK (mSetMinTimestamp s t).2 := by
  unfold mSetMinTimestamp
  dsimp only []
  exact foldl_preserves capOK
    (fun u x => removeFromOwned { u with pm := smRemove x.id u.pm } x)
    (fun u x hu => capOK_removeFromOwned _ _ hu)
    (smSetMinVal timeScore (u64ofInt t) s.tm).1
    { s with tm := (smSetMinVal timeScore (u64ofInt t) s.tm).2 } h

theorem hygOK_mSetMinTimestamp (s : MState) (t : Int) (h : hygOK s) :
    hygOK (mSetMinTimestamp s t).2 := by
  unfold mSetMinTimestamp
  dsimp only []
  exact foldl_preserves hygOK
    (fun u x => removeFromOwned { u with pm := smRemove x.id u.pm } x)
    (fun u x hu => hygOK_removeFromOwned _ _ hu)
    (smSetMinVal timeScore (u64ofInt t) s.tm).1
    { s with tm := (smSetMinVal timeScore (u64ofInt t) s.tm).2 } h

theorem capOK_buildLoop (f : Item → Verdict) :
    ∀ (fuel : Nat) (s : MState) (restorable trace : List Item),
      capOK s → capOK (buildLoop f fuel s restorable trace).1 := by
  intro fuel
  induction fuel with
  | zero => intro s r tr h; exact h
  | succ n ih =>
      intro s r tr h
      unfold buildLoop
      cases hpop : smPopMax s.pm with
      | none => exact h
      | some pr =>
          dsimp only []
          repeat' split
          all_goals first
            | exact h
            | exact capOK_removeFromOwned _ _ h
            | (apply capOK_mRemoveAccount
               first
                 | exact h
                 | exact capOK_removeFromOwned _ _ h)
            | (apply ih
               first
                 | exact h
                 | exact capOK_removeFromOwned _ _ h
                 | (apply capOK_mRemoveAccount
                    first
                      | exact h
                      | exact capOK_removeFromOwned _ _ h))

theorem hygOK_buildLoop (f : Item → Verdict) :
    ∀ (fuel : Nat) (s : MState) (restorable trace : List Item),
      hygOK s → hygOK (buildLoop f fuel s restorable trace).1 := by
  intro fuel
  induction fuel with
  | zero => intro s r tr h; exact h
  | succ n ih =>
      intro s r tr h
      unfold buildLoop
      cases hpop : smPopMax s.pm with
      | none => exact h
      | some pr =>
          dsimp only []
          repeat' split
          all_goals first
            | exact h
            | exact hygOK_removeFromOwned _ _ h
            | (apply hygOK_mRemoveAccount
               first
                 | exact h
                 | exact hygOK_removeFromOwned _ _ h)
            | (apply ih
               first
                 | exact h
                 | exact hygOK_removeFromOwned _ _ h
                 | (apply hygOK_mRemoveAccount
                    first
                      | exact h
                      | exact hygOK_removeFromOwned _ _ h))

theorem capOK_mBuildFull (s : MState) (f : Item → Verdict) (h : capOK s) :
    capOK (mBuildFull s f).1 := by
  unfold mBuildFull
  dsimp only []
  exact capOK_buildLoop f s.pm.length s [] [] h

theorem hygOK_mBuildFull (s : MState) (f : Item → Verdict) (h : hygOK s) :
    hygOK (mBuildFull s f).1 := by
  unfold mBuildFull
  dsimp only []
  exact hygOK_buildLoop f s.pm.length s [] [] h

theorem capOK_leaseLoop :
    ∀ (n : Nat) (s : MState) (txs : List Item) (lease : List Nat),
      capOK s → capOK (leaseLoop n s txs lease).1 := by
  intro n
  induction n with
  | zero => intro s txs lease h; exact h
  | succ m ih =>
      intro s txs lease h
      unfold leaseLoop
      cases hp : mPopMax s with
      | mk ox s1 =>
          have h1 : capOK s1 := by
            have := capOK_mPopMax s h
            rw [hp] at this
            exact this
          cases ox with
          | none => exact h1
          | some x => exact ih s1 (txs ++ [x]) (lease ++ [x.id]) h1

theorem hygOK_leaseLoop :
    ∀ (n : Nat) (s : MState) (txs : List Item) (lease : List Nat),
      hygOK s → hygOK (leaseLoop n s txs lease).1 := by
  intro n
  induction n with
  | zero => intro s txs lease h; exact h
  | succ m ih =>
      intro s txs lease h
      unfold leaseLoop
      cases hp : mPopMax s with
      | mk ox s1 =>
          have h1 : hygOK s1 := by
            have := hygOK_mPopMax s h
            rw [hp] at this
            exact this
          cases ox with
          | none => exact h1
          | some x => exact ih s1 (txs ++ [x]) (lease ++ [x.id]) h1

theorem capOK_mLeaseItems (s : MState) (n : Nat) (h : capOK s) :
    capOK (mLeaseItems s n).2 := by
  unfold mLeaseItems
  dsimp only []
  exact capOK_leaseLoop n { s with leasedItems := some [] } [] [] h

theorem hygOK_mLeaseItems (s : MState) (n : Nat) (h : hygOK s) :
    hygOK (mLeaseItems s n).2 := by
  unfold mLeaseItems
  dsimp only []
  exact hygOK_leaseLoop n { s with leasedItems := some [] } [] [] h

theorem capOK_mClearLease (s : MState) (rs : List Item) (h : capOK s) :
    capOK (mClearLease s rs) :=
  capOK_madd { s with leasedItems := none } rs h

theorem hygOK_mClearLease (s : MState) (rs : List Item) (hmp : 1 ≤ s.maxPayerSize)
    (h : hygOK s) : hygOK (mClearLease s rs) :=
  hygOK_madd { s with leasedItems := none } rs hmp h

/-- Scenario S3: first item of the capped payer. -/
def s3A : Item := ⟨1, 7, 5, 100⟩

/-- Scenario S3: second, higher-priced item of the same capped payer. -/
def s3B : Item := ⟨2, 7, 9, 100⟩

/-- Scenario S3: `new(max=10, payer_max=1, exempt=[])`. -/
def s3S : MState := ⟨10, 1, [], [], [], [], none⟩

/-- Scenario S4: first item of the exempt payer 2. -/
def exA : Item := ⟨1, 2, 5, 100⟩

/-- Scenario S4: second item of the exempt payer 2. -/
def exB : Item := ⟨2, 2, 6, 100⟩

/-- Scenario S4: `new(max=10, payer_max=1, exempt=[2])`. -/
def exS : MState := ⟨10, 1, [], [], [], [2], none⟩

/-! ### Claim C5 -/

/-- C5: the per-payer cap — from a state where every non-exempt payer owns
at most `maxPayerSize` ids, every operation preserves that bound; an item of
a non-exempt payer already at the cap is skipped silently (scenario S3),
while an exempt payer may exceed the cap (scenario S4: with the cap at 1,
payer 2 ends up owning both ids). -/
theorem C5_per_payer_cap (s : MState) (xs ys rs : List Item) (p : Nat)
    (t : Int) (n : Nat) (f : Item → Verdict) (h : capOK s) :
    capOK (madd s xs) ∧ capOK (mRemove s ys) ∧ capOK (mPopMax s).2 ∧
    capOK (mPopMin s).2 ∧ capOK (mRemoveAccount s p) ∧
    capOK (mSetMinTimestamp s t).2 ∧ capOK (mBuildFull s f).1 ∧
    capOK (mLeaseItems s n).2 ∧ capOK (mClearLease s rs) ∧
    mLen (madd s3S [s3A, s3B]) = 1 ∧ mHas (madd s3S [s3A, s3B]) s3B.id = false ∧
    exS.maxPayerSize = 1 ∧ exS.exemptPayers.contains exA.payer = true ∧
    ownedGet (madd exS [exA, exB]).owned exA.payer = some [2, 1] :=
  ⟨capOK_madd s xs h, capOK_mRemove s ys h, capOK_mPopMax s h,
   capOK_mPopMin s h, capOK_mRemoveAccount s p h, capOK_mSetMinTimestamp s t h,
   capOK_mBuildFull s f h, capOK_mLeaseItems s n h, capOK_mClearLease s rs h,
   by decide, by decide, by decide, by decide, by decide⟩

/-- Witness for C5 at concrete inputs. -/
theorem C5_per_payer_cap_witness :
    capOK dupS ∧
    (capOK (madd dupS [dupA7]) ∧ capOK (mRemove dupS [dupA9]) ∧
     capOK (mPopMax dupS).2 ∧ capOK (mPopMin dupS).2 ∧
     capOK (mRemoveAccount dupS 2) ∧ capOK (mSetMinTimestamp dupS 5).2 ∧
     capOK (mBuildFull dupS bldF).1 ∧ capOK (mLeaseItems dupS 1).2 ∧
     capOK (mClearLease dupS [capLow]) ∧
     mLen (madd s3S [s3A, s3B]) = 1 ∧ mHas (madd s3S [s3A, s3B]) s3B.id = false ∧
     exS.maxPayerSize = 1 ∧ exS.exemptPayers.contains exA.payer = true ∧
     ownedGet (madd exS [exA, exB]).owned exA.payer = some [2, 1]) :=
  ⟨by decide, C5_per_payer_cap dupS [dupA7] [dupA9] [capLow] 2 5 1 bldF (by decide)⟩

/-! ### Claim C9 -/

/-- An item whose non-exempt payer faces a zero per-payer cap. -/
def hygX : Item := ⟨1, 2, 5, 100⟩

/-- A fresh mempool with `maxPayerSize = 0` and no exemptions. -/
def hygS : MState := ⟨10, 0, [], [], [], [], none⟩

/-- C9 counterexample: `Add` can leave behind an empty owned set.  With
`maxPayerSize = 0` and a non-exempt payer, `add` stores the empty set for
the payer before the cap check and then skips the item, so the owned map
keeps the empty entry and the hygiene invariant fails. -/
theorem C9_counterexample_add_leaks_empty_owned_set :
    (madd hygS [hygX]).owned = [(2, [])] ∧ ¬ hygOK (madd hygS [hygX]) := by
  constructor
  · decide
  · decide

/-- C9 amended: owned hygiene — provided `maxPayerSize ≥ 1` (with
`maxPayerSize = 0` the admission path of a rejected non-exempt new payer
leaves an empty owned set behind, as the counterexample shows), every
operation maps a hygienic state to a hygienic state: `owned[p]` is either
absent or non-empty. -/
theorem C9_owned_hygiene (s : MState) (xs ys rs : List Item) (p : Nat)
    (t : Int) (n : Nat) (f : Item → Verdict) (hmp : 1 ≤ s.maxPayerSize)
    (h : hygOK s) :
    hygOK (madd s xs) ∧ hygOK (mRemove s ys) ∧ hygOK (mPopMax s).2 ∧
    hygOK (mPopMin s).2 ∧ hygOK (mRemoveAccount s p) ∧
    hygOK (mSetMinTimestamp s t).2 ∧ hygOK (mBuildFull s f).1 ∧
    hygOK (mLeaseItems s n).2 ∧ hygOK (mClearLease s rs) :=
  ⟨hygOK_madd s xs hmp h, hygOK_mRemove s ys h, hygOK_mPopMax s h,
   hygOK_mPopMin s h, hygOK_mRemoveAccount s p h, hygOK_mSetMinTimestamp s t h,
   hygOK_mBuildFull s f h, hygOK_mLeaseItems s n h, hygOK_mClearLease s rs hmp h⟩

/-- Witness for C9 at concrete inputs. -/
theorem C9_owned_hygiene_witness :
    1 ≤ dupS.maxPayerSize ∧ hygOK dupS ∧
    (hygOK (madd dupS [dupA7]) ∧ hygOK (mRemove dupS [dupA9]) ∧
     hygOK (mPopMax dupS).2 ∧ hygOK (mPopMin dupS).2 ∧
     hygOK (mRemoveAccount dupS 2) ∧ hygOK (mSetMinTimestamp dupS 5).2 ∧
     hygOK (mBuildFull dupS bldF).1 ∧ hygOK (mLeaseItems dupS 1).2 ∧
     hygOK (mClearLease dupS [capLow])) :=
  ⟨by decide, by decide,
   C9_owned_hygiene dupS [dupA7] [dupA9] [capLow] 2 5 1 bldF (by decide) (by decide)⟩

/-! Membership lemmas about the queue model and the owned map, used by the
Build-restore and round-trip claims. -/

theorem smHas_true_iff (i : Nat) (l : List Item) :
    smHas i l = true ↔ ∃ x, x ∈ l ∧ x.id = i := by
  simp [smHas]

theorem smHas_false_iff (i : Nat) (l : List Item) :
    smHas i l = false ↔ ∀ x ∈ l, x.id ≠ i := by
  simp [smHas]

theorem smHas_smRemove_self (i : Nat) (l : List Item) :
    smHas i (smRemove i l) = false := by
  rw [smHas_false_iff]
  intro x hx
  have := (List.mem_filter.mp hx).2
  simpa using this

theorem smHas_smRemove_ne {i j : Nat} (l : List Item) (h : i ≠ j) :
    smHas i (smRemove j l) = smHas i l := by
  cases hl : smHas i l with
  | false =>
      rw [smHas_false_iff] at hl ⊢
      intro x hx
      exact hl x (List.mem_of_mem_filter hx)
  | true =>
      rw [smHas_true_iff] at hl ⊢
      obtain ⟨x, hx, hxi⟩ := hl
      refine ⟨x, List.mem_filter.mpr ⟨hx, ?_⟩, hxi⟩
      simp [hxi]
      omega

theorem smHas_smInsert (sc : Item → Nat) (i : Nat) (x : Item) (l : List Item) :
    smHas i (smInsert sc x l) = ((x.id == i) || smHas i l) := by
  induction l with
  | nil => simp [smInsert, smHas]
  | cons y ys ih =>
      unfold smInsert
      split
      · simp [smHas, List.any_cons]
      · simp only [smHas, List.any_cons] at *
        rw [ih]
        cases x.id == i <;> cases y.id == i <;> simp

theorem smHas_foldl_insert_mono (sc : Item → Nat) (R : List Item) :
    ∀ (base : List Item) (i : Nat), smHas i base = true →
      smHas i (R.foldl (fun l y => smInsert sc y l) base) = true := by
  induction R with
  | nil => intro base i h; exact h
  | cons y ys ih =>
      intro base i h
      refine ih (smInsert sc y base) i ?_
      rw [smHas_smInsert]
      rw [h]
      simp

theorem smHas_foldl_insert_mem (sc : Item → Nat) (R : List Item) :
    ∀ (base : List Item) (x : Item), x ∈ R →
      smHas x.id (R.foldl (fun l y => smInsert sc y l) base) = true := by
  induction R with
  | nil => intro base x hx; simp at hx
  | cons y ys ih =>
      intro base x hx
      rcases List.mem_cons.mp hx with rfl | hx2
      · refine smHas_foldl_insert_mono sc ys (smInsert sc x base) x.id ?_
        rw [smHas_smInsert]
        simp
      · exact ih (smInsert sc y base) x hx2

theorem natContains_true_iff (l : List Nat) (j : Nat) :
    l.contains j = true ↔ j ∈ l := by
  induction l with
  | nil => simp
  | cons a as ih => simp

theorem ownedGet_ownedSet_self (o : Owned) (p : Nat) (v : List Nat) :
    ownedGet (ownedSet o p v) p = some v := by
  induction o with
  | nil => simp [ownedSet, ownedGet]
  | cons e es ih =>
      unfold ownedSet
      split
      · simp [ownedGet]
      · rename_i hep
        unfold ownedGet
        rw [if_neg hep]
        exact ih

theorem ownedGet_ownedSet_ne (o : Owned) (p q : Nat) (v : List Nat)
    (h : q ≠ p) : ownedGet (ownedSet o p v) q = ownedGet o q := by
  induction o with
  | nil =>
      unfold ownedSet ownedGet
      rw [if_neg]
      · rfl
      · simpa using fun hc => h hc.symm
  | cons e es ih =>
      unfold ownedSet
      split
      · rename_i hep
        have hep2 : e.1 = p := by simpa using hep
        unfold ownedGet
        rw [if_neg, if_neg]
        · simpa using fun hc => h (hep2 ▸ hc).symm
        · simpa using fun hc => h hc.symm
      · unfold ownedGet
        by_cases heq : (e.1 == q) = true
        · rw [if_pos heq, if_pos heq]
        · rw [if_neg heq, if_neg heq]
          exact ih

theorem ownedGet_ownedDelete_self (o : Owned) (p : Nat) :
    ownedGet (ownedDelete o p) p = none := by
  induction o with
  | nil => rfl
  | cons e es ih =>
      unfold ownedDelete
      rw [List.filter_cons]
      split
      · rename_i hne
        unfold ownedGet
        rw [if_neg]
        · exact ih
        · simpa using hne
      · exact ih

theorem ownedGet_cons (e : Nat × List Nat) (es : Owned) (q : Nat) :
    ownedGet (e :: es) q = if e.1 == q then some e.2 else ownedGet es q := rfl

theorem ownedGet_ownedDelete_ne (o : Owned) (p q : Nat) (h : q ≠ p) :
    ownedGet (ownedDelete o p) q = ownedGet o q := by
  induction o with
  | nil => rfl
  | cons e es ih =>
      unfold ownedDelete
      rw [List.filter_cons]
      split
      · rw [ownedGet_cons, ownedGet_cons]
        by_cases heq : (e.1 == q) = true
        · rw [if_pos heq, if_pos heq]
        · rw [if_neg heq, if_neg heq]
          exact ih
      · rename_i hne
        have hep : e.1 = p := by simpa using hne
        show ownedGet (ownedDelete es p) q = ownedGet (e :: es) q
        rw [ownedGet_cons, if_neg]
        · exact ih
        · simpa using fun hc => h (hep ▸ hc).symm

theorem natContains_false_iff (l : List Nat) (j : Nat) :
    l.contains j = false ↔ j ∉ l := by
  rw [Bool.eq_false_iff]
  constructor
  · intro h hc
    exact h ((natContains_true_iff l j).mpr hc)
  · intro h hc
    exact h ((natContains_true_iff l j).mp hc)

theorem ownedHas_rfo_self (o : Owned) (p i : Nat) :
    ownedHas (rfoOwned o p i) p i = false := by
  unfold rfoOwned
  cases hget : ownedGet o p with
  | none => simp [ownedHas, hget]
  | some acct =>
      dsimp only []
      split
      · simp [ownedHas, ownedGet_ownedDelete_self]
      · unfold ownedHas
        rw [ownedGet_ownedSet_self]
        dsimp only []
        rw [natContains_false_iff]
        intro hc
        have := (List.mem_filter.mp hc).2
        simp at this

theorem ownedHas_rfo_other (o : Owned) (p i q j : Nat) (hij : j ≠ i) :
    ownedHas (rfoOwned o p i) q j = ownedHas o q j := by
  unfold rfoOwned
  cases hget : ownedGet o p with
  | none => rfl
  | some acct =>
      dsimp only []
      by_cases hqp : q = p
      · subst hqp
        split
        · rename_i hemp
          have hempl : acct.filter (fun k => k != i) = [] := by
            simpa using hemp
          unfold ownedHas
          rw [ownedGet_ownedDelete_self, hget]
          dsimp only []
          symm
          rw [natContains_false_iff]
          intro hjin
          have hjf : j ∈ acct.filter (fun k => k != i) :=
            List.mem_filter.mpr ⟨hjin, by simpa using hij⟩
          rw [hempl] at hjf
          simp at hjf
        · unfold ownedHas
          rw [ownedGet_ownedSet_self, hget]
          dsimp only []
          cases hc : acct.contains j with
          | true =>
              rw [natContains_true_iff] at hc
              rw [natContains_true_iff]
              exact List.mem_filter.mpr ⟨hc, by simpa using hij⟩
          | false =>
              rw [natContains_false_iff] at hc
              rw [natContains_false_iff]
              intro hjf
              exact hc (List.mem_of_mem_filter hjf)
      · split
        · unfold ownedHas
          rw [ownedGet_ownedDelete_ne o p q hqp]
        · unfold ownedHas
          rw [ownedGet_ownedSet_ne o p q _ hqp]

theorem smPopMax_decomp {l : List Item} {r : Item × List Item}
    (h : smPopMax l = some r) : l = r.2 ++ [r.1] := by
  unfold smPopMax at h
  cases hg : l.getLast? with
  | none => rw [hg] at h; simp at h
  | some m =>
      rw [hg] at h
      have hr : (m, l.dropLast) = r := by simpa using h
      subst hr
      have hne : l ≠ [] := by
        intro hc
        rw [hc] at hg
        simp at hg
      have hm : l.getLast hne = m := by
        have h2 := List.getLast?_eq_getLast l hne
        rw [h2] at hg
        exact Option.some.inj hg
      dsimp only []
      rw [← hm]
      exact (List.dropLast_append_getLast hne).symm

theorem popMax_facts {T : List Item} {pr : Item × List Item}
    (h : smPopMax T = some pr) (hnd : (T.map Item.id).Nodup) :
    pr.1 ∈ T ∧ (∀ x ∈ pr.2, x ∈ T) ∧ (pr.2.map Item.id).Nodup ∧
    smHas pr.1.id pr.2 = false ∧ (∀ x ∈ pr.2, x.id ≠ pr.1.id) := by
  have hd := smPopMax_decomp h
  rw [hd] at hnd
  rw [List.map_append] at hnd
  rcases List.nodup_append.mp hnd with ⟨h1, _, hdisj⟩
  have hne : ∀ x ∈ pr.2, x.id ≠ pr.1.id := by
    intro x hx hc
    exact hdisj (List.mem_map_of_mem Item.id hx) (by simp [hc])
  refine ⟨?_, ?_, h1, ?_, hne⟩
  · rw [hd]
    exact List.mem_append_right _ (by simp)
  · intro x hx
    rw [hd]
    exact List.mem_append_left _ hx
  · rw [smHas_false_iff]
    exact hne

/-- The invariant maintained by the `Build` iteration loop when the callback
never requests account removal: the current price queue has unique ids all
still mirrored in `tm` and `owned`, popped items never reappear in the price
queue during the pass, the restorable accumulator is exactly the restored
part of the trace, restored items are still in `tm` and `owned`, and
consumed items are in neither. -/
structure BuildInv (f : Item → Verdict) (T : MState) (tr rst : List Item) : Prop where
  pmNodup : (T.pm.map Item.id).Nodup
  pmIn : ∀ x ∈ T.pm, smHas x.id T.tm = true ∧ ownedHas T.owned x.payer x.id = true
  trOut : ∀ x ∈ tr, smHas x.id T.pm = false
  trNodup : (tr.map Item.id).Nodup
  rstEq : rst = tr.filter (fun x => (f x).restore)
  restored : ∀ x ∈ tr, (f x).restore = true →
    smHas x.id T.tm = true ∧ ownedHas T.owned x.payer x.id = true
  consumed : ∀ x ∈ tr, (f x).restore = false →
    smHas x.id T.tm = false ∧ ownedHas T.owned x.payer x.id = false

theorem trace_id_ne {f : Item → Verdict} {T : MState} {tr rst : List Item}
    {pr : Item × List Item} (hinv : BuildInv f T tr rst)
    (hmem : pr.1 ∈ T.pm) : ∀ x ∈ tr, x.id ≠ pr.1.id := by
  intro x hx hc
  have h1 := hinv.trOut x hx
  rw [smHas_false_iff] at h1
  exact h1 pr.1 hmem hc.symm

theorem buildInv_step_restore (f : Item → Verdict) (T : MState)
    (tr rst : List Item) (pr : Item × List Item)
    (hpop : smPopMax T.pm = some pr) (hres : (f pr.1).restore = true)
    (hinv : BuildInv f T tr rst) :
    BuildInv f { T with pm := pr.2 } (tr ++ [pr.1]) (rst ++ [pr.1]) := by
  obtain ⟨hmem, hsub, hnd2, hnotin, hne⟩ := popMax_facts hpop hinv.pmNodup
  have htrne := trace_id_ne hinv hmem
  refine ⟨hnd2, ?_, ?_, ?_, ?_, ?_, ?_⟩
  · intro x hx
    exact hinv.pmIn x (hsub x hx)
  · intro x hx
    rcases List.mem_append.mp hx with hx1 | hx2
    · rw [smHas_false_iff]
      intro y hy
      have h1 := hinv.trOut x hx1
      rw [smHas_false_iff] at h1
      exact h1 y (hsub y hy)
    · have hxeq : x = pr.1 := by simpa using hx2
      subst hxeq
      exact hnotin
  · rw [List.map_append, List.nodup_append]
    refine ⟨hinv.trNodup, by simp, ?_⟩
    intro a ha hb
    have hb2 : a = pr.1.id := by simpa using hb
    obtain ⟨x, hx, rfl⟩ := List.mem_map.mp ha
    exact htrne x hx hb2
  · rw [List.filter_append]
    simp [hres, ← hinv.rstEq]
  · intro x hx hfx
    rcases List.mem_append.mp hx with hx1 | hx2
    · exact hinv.restored x hx1 hfx
    · have hxeq : x = pr.1 := by simpa using hx2
      subst hxeq
      exact hinv.pmIn pr.1 hmem
  · intro x hx hfx
    rcases List.mem_append.mp hx with hx1 | hx2
    · exact hinv.consumed x hx1 hfx
    · have hxeq : x = pr.1 := by simpa using hx2
      subst hxeq
      rw [hres] at hfx
      simp at hfx

theorem buildInv_step_consume (f : Item → Verdict) (T : MState)
    (tr rst : List Item) (pr : Item × List Item)
    (hpop : smPopMax T.pm = some pr) (hres : (f pr.1).restore = false)
    (hinv : BuildInv f T tr rst) :
    BuildInv f
      (removeFromOwned { T with pm := pr.2, tm := smRemove pr.1.id T.tm } pr.1)
      (tr ++ [pr.1]) rst := by
  obtain ⟨hmem, hsub, hnd2, hnotin, hne⟩ := popMax_facts hpop hinv.pmNodup
  have htrne := trace_id_ne hinv hmem
  refine ⟨hnd2, ?_, ?_, ?_, ?_, ?_, ?_⟩
  · intro x hx
    have h2 := hinv.pmIn x (hsub x hx)
    have hxne : x.id ≠ pr.1.id := hne x hx
    constructor
    · show smHas x.id (smRemove pr.1.id T.tm) = true
      rw [smHas_smRemove_ne T.tm hxne]
      exact h2.1
    · show ownedHas (rfoOwned T.owned pr.1.payer pr.1.id) x.payer x.id = true
      rw [ownedHas_rfo_other T.owned pr.1.payer pr.1.id x.payer x.id hxne]
      exact h2.2
  · intro x hx
    rcases List.mem_append.mp hx with hx1 | hx2
    · rw [smHas_false_iff]
      intro y hy
      have h1 := hinv.trOut x hx1
      rw [smHas_false_iff] at h1
      exact h1 y (hsub y hy)
    · have hxeq : x = pr.1 := by simpa using hx2
      subst hxeq
      exact hnotin
  · rw [List.map_append, List.nodup_append]
    refine ⟨hinv.trNodup, by simp, ?_⟩
    intro a ha hb
    have hb2 : a = pr.1.id := by simpa using hb
    obtain ⟨x, hx, rfl⟩ := List.mem_map.mp ha
    exact htrne x hx hb2
  · rw [List.filter_append]
    simp [hres, ← hinv.rstEq]
  · intro x hx hfx
    rcases List.mem_append.mp hx with hx1 | hx2
    · have h2 := hinv.restored x hx1 hfx
      have hxne : x.id ≠ pr.1.id := htrne x hx1
      constructor
      · show smHas x.id (smRemove pr.1.id T.tm) = true
        rw [smHas_smRemove_ne T.tm hxne]
        exact h2.1
      · show ownedHas (rfoOwned T.owned pr.1.payer pr.1.id) x.payer x.id = true
        rw [ownedHas_rfo_other T.owned pr.1.payer pr.1.id x.payer x.id hxne]
        exact h2.2
    · have hxeq : x = pr.1 := by simpa using hx2
      subst hxeq
      rw [hres] at hfx
      simp at hfx
  · intro x hx hfx
    rcases List.mem_append.mp hx with hx1 | hx2
    · have h2 := hinv.consumed x hx1 hfx
      have hxne : x.id ≠ pr.1.id := htrne x hx1
      constructor
      · show smHas x.id (smRemove pr.1.id T.tm) = false
        rw [smHas_smRemove_ne T.tm hxne]
        exact h2.1
      · show ownedHas (rfoOwned T.owned pr.1.payer pr.1.id) x.payer x.id = false
        rw [ownedHas_rfo_other T.owned pr.1.payer pr.1.id x.payer x.id hxne]
        exact h2.2
    · have hxeq : x = pr.1 := by simpa using hx2
      subst hxeq
      exact ⟨smHas_smRemove_self pr.1.id T.tm, ownedHas_rfo_self T.owned pr.1.payer pr.1.id⟩

theorem buildLoop_inv (f : Item → Verdict) (hf : ∀ x, (f x).removeAcct = false) :
    ∀ (fuel : Nat) (T : MState) (rst tr : List Item), BuildInv f T tr rst →
      BuildInv f (buildLoop f fuel T rst tr).1 (buildLoop f fuel T rst tr).2.2.1
        (buildLoop f fuel T rst tr).2.1 := by
  intro fuel
  induction fuel with
  | zero => intro T rst tr h; exact h
  | succ n ih =>
      intro T rst tr h
      unfold buildLoop
      cases hpop : smPopMax T.pm with
      | none => exact h
      | some pr =>
          dsimp only []
          rw [hf pr.1]
          rw [if_neg Bool.false_ne_true]
          by_cases hres : (f pr.1).restore = true
          · rw [if_pos hres, if_pos hres]
            split
            · exact buildInv_step_restore f T tr rst pr hpop hres h
            · exact ih _ _ _ (buildInv_step_restore f T tr rst pr hpop hres h)
          · have hres2 : (f pr.1).restore = false := by simpa using hres
            rw [if_neg hres, if_neg hres]
            split
            · exact buildInv_step_consume f T tr rst pr hpop hres2 h
            · exact ih _ _ _ (buildInv_step_consume f T tr rst pr hpop hres2 h)

/-- A resident item for the restore/removeAccount interference scenario. -/
def c7Item : Item := ⟨4, 9, 8, 70⟩

/-- A consistent one-item mempool holding `c7Item`. -/
def c7S : MState := ⟨10, 5, [c7Item], [c7Item], [(9, [4])], [], none⟩

/-- A callback that restores every item but also removes its account. -/
def c7F : Item → Verdict := fun _ => ⟨true, true, true, false⟩

/-- Scenario S6: the price-9 item. -/
def s6P9 : Item := ⟨1, 11, 9, 100⟩

/-- Scenario S6: the price-7 item. -/
def s6P7 : Item := ⟨2, 12, 7, 100⟩

/-- Scenario S6: the price-5 item. -/
def s6P5 : Item := ⟨3, 13, 5, 100⟩

/-- Scenario S6: the mempool holding the three items. -/
def s6S : MState := madd ⟨10, 5, [], [], [], [], none⟩ [s6P9, s6P7, s6P5]

/-- Scenario S6: restore the price-9 item, consume the rest. -/
def s6F : Item → Verdict := fun x => ⟨true, x.unitPrice == 9, false, false⟩

/-! ### Claim C7 -/

/-- C7 counterexample: an item for which the callback returns restore=true
is claimed to stay in the time queue and in `owned` throughout the pass.
When the same verdict also carries remove_account=true, the account sweep
deletes it from both: after `Build` on the one-item mempool `c7S` with the
restoring callback `c7F`, the restored item is gone from the time queue. -/
theorem C7_counterexample_restore_with_remove_account :
    (c7F c7Item).restore = true ∧
    smHas c7Item.id (mBuildFull c7S c7F).1.tm = false ∧
    ownedHas (mBuildFull c7S c7F).1.owned c7Item.payer c7Item.id = false := by
  decide

/-- C7 amended: provided the callback never returns remove_account=true,
the Build restore semantics hold: each id is handed to the callback at most
once per pass (the popped trace has no duplicate ids, since restorable items
re-enter the price queue only after the loop); an item whose verdict was
restore=true is still in the time queue and in `owned` and is back in the
price queue after the pass; an item whose verdict was restore=false has been
removed from the time queue and from `owned` (consumed).  Scenario S6 is
verified concretely: after restoring only the price-9 item, one item with
price 9 remains. -/
theorem C7_build_restore_semantics (s : MState) (f : Item → Verdict)
    (hf : ∀ x, (f x).removeAcct = false)
    (h1 : pmNodupOK s)
    (h2 : ∀ x ∈ s.pm, smHas x.id s.tm = true)
    (h3 : pmOwnedOK s) :
    (((mBuildFull s f).2.2.1).map Item.id).Nodup ∧
    (∀ x ∈ (mBuildFull s f).2.2.1, (f x).restore = true →
      smHas x.id (mBuildFull s f).1.tm = true ∧
      ownedHas (mBuildFull s f).1.owned x.payer x.id = true ∧
      smHas x.id (mBuildFull s f).1.pm = true) ∧
    (∀ x ∈ (mBuildFull s f).2.2.1, (f x).restore = false →
      smHas x.id (mBuildFull s f).1.tm = false ∧
      ownedHas (mBuildFull s f).1.owned x.payer x.id = false) ∧
    mLen (mBuildFull s6S s6F).1 = 1 ∧
    mPeekMax (mBuildFull s6S s6F).1 = some s6P9 := by
  have hinit : BuildInv f s [] [] :=
    ⟨h1, fun x hx => ⟨h2 x hx, h3 x hx⟩, by simp, by simp, rfl, by simp, by simp⟩
  have hloop := buildLoop_inv f hf s.pm.length s [] [] hinit
  refine ⟨hloop.trNodup, ?_, ?_, by decide, by decide⟩
  · intro x hx hfx
    have hx2 : x ∈ (buildLoop f s.pm.length s [] []).2.2.1 := hx
    refine ⟨(hloop.restored x hx2 hfx).1, (hloop.restored x hx2 hfx).2, ?_⟩
    show smHas x.id ((buildLoop f s.pm.length s [] []).2.1.foldl
      (fun l y => smInsert priceScore y l) (buildLoop f s.pm.length s [] []).1.pm) = true
    apply smHas_foldl_insert_mem
    rw [hloop.rstEq]
    exact List.mem_filter.mpr ⟨hx2, by simp [hfx]⟩
  · intro x hx hfx
    exact hloop.consumed x hx hfx

/-- Witness for C7 at a concrete input: the three-item scenario S6 with the
restore-the-price-9-item callback. -/
theorem C7_build_restore_semantics_witness :
    (∀ x, (s6F x).removeAcct = false) ∧ pmNodupOK s6S ∧
    (∀ x ∈ s6S.pm, smHas x.id s6S.tm = true) ∧ pmOwnedOK s6S ∧
    ((((mBuildFull s6S s6F).2.2.1).map Item.id).Nodup ∧
     (∀ x ∈ (mBuildFull s6S s6F).2.2.1, (s6F x).restore = true →
       smHas x.id (mBuildFull s6S s6F).1.tm = true ∧
       ownedHas (mBuildFull s6S s6F).1.owned x.payer x.id = true ∧
       smHas x.id (mBuildFull s6S s6F).1.pm = true) ∧
     (∀ x ∈ (mBuildFull s6S s6F).2.2.1, (s6F x).restore = false →
       smHas x.id (mBuildFull s6S s6F).1.tm = false ∧
       ownedHas (mBuildFull s6S s6F).1.owned x.payer x.id = false) ∧
     mLen (mBuildFull s6S s6F).1 = 1 ∧
     mPeekMax (mBuildFull s6S s6F).1 = some s6P9) :=
  ⟨fun x => rfl, by decide, by decide, by decide,
   C7_build_restore_semantics s6S s6F (fun x => rfl) (by decide) (by decide) (by decide)⟩

/-! Commutation of removals, used by the add/remove round-trip claim. -/

theorem smRemove_comm (i j : Nat) (l : List Item) :
    smRemove i (smRemove j l) = smRemove j (smRemove i l) := by
  unfold smRemove
  rw [List.filter_filter, List.filter_filter]
  apply List.filter_congr
  intro a _
  exact Bool.and_comm _ _

theorem ownedDelete_comm (o : Owned) (p q : Nat) :
    ownedDelete (ownedDelete o p) q = ownedDelete (ownedDelete o q) p := by
  unfold ownedDelete
  rw [List.filter_filter, List.filter_filter]
  apply List.filter_congr
  intro a _
  exact Bool.and_comm _ _

theorem ownedSet_cons_pos (e : Nat × List Nat) (es : Owned) (p : Nat)
    (v : List Nat) (h : e.1 = p) : ownedSet (e :: es) p v = (p, v) :: es := by
  unfold ownedSet
  rw [if_pos (by simpa using h)]

theorem ownedSet_cons_neg (e : Nat × List Nat) (es : Owned) (p : Nat)
    (v : List Nat) (h : e.1 ≠ p) : ownedSet (e :: es) p v = e :: ownedSet es p v := by
  unfold ownedSet
  rw [if_neg (by simpa using h)]
  congr 1
  rw [ownedSet.eq_def]

theorem ownedDelete_cons_pos (e : Nat × List Nat) (es : Owned) (p : Nat)
    (h : e.1 = p) : ownedDelete (e :: es) p = ownedDelete es p := by
  unfold ownedDelete
  rw [List.filter_cons, if_neg (by simp [h])]

theorem ownedDelete_cons_neg (e : Nat × List Nat) (es : Owned) (p : Nat)
    (h : e.1 ≠ p) : ownedDelete (e :: es) p = e :: ownedDelete es p := by
  unfold ownedDelete
  rw [List.filter_cons, if_pos (by simpa using h)]

theorem ownedDelete_ownedSet_comm (o : Owned) (p q : Nat) (v : List Nat)
    (hpq : p ≠ q) :
    ownedDelete (ownedSet o p v) q = ownedSet (ownedDelete o q) p v := by
  induction o with
  | nil => simp [ownedSet, ownedDelete, List.filter_cons, hpq]
  | cons e es ih =>
      by_cases hep : e.1 = p
      · have heq : e.1 ≠ q := by rw [hep]; exact hpq
        rw [ownedSet_cons_pos e es p v hep,
          ownedDelete_cons_neg (p, v) es q hpq,
          ownedDelete_cons_neg e es q heq,
          ownedSet_cons_pos e (ownedDelete es q) p v hep]
      · by_cases heq : e.1 = q
        · rw [ownedSet_cons_neg e es p v hep,
            ownedDelete_cons_pos e (ownedSet es p v) q heq,
            ownedDelete_cons_pos e es q heq]
          exact ih
        · rw [ownedSet_cons_neg e es p v hep,
            ownedDelete_cons_neg e (ownedSet es p v) q heq,
            ownedDelete_cons_neg e es q heq,
            ownedSet_cons_neg e (ownedDelete es q) p v hep, ih]

theorem ownedSet_comm (o : Owned) (p q : Nat) (v w : List Nat) (hpq : p ≠ q) :
    ∀ (hp : ∃ a, ownedGet o p = some a) (hq : ∃ b, ownedGet o q = some b),
      ownedSet (ownedSet o p v) q w = ownedSet (ownedSet o q w) p v := by
  induction o with
  | nil =>
      rintro ⟨a, ha⟩ hq
      simp [ownedGet] at ha
  | cons e es ih =>
      rintro ⟨a, ha⟩ ⟨b, hb⟩
      by_cases hep : e.1 = p
      · have heq : ¬ e.1 = q := by rw [hep]; exact hpq
        simp [ownedSet, hep, heq, hpq, Ne.symm hpq]
      · by_cases heq : e.1 = q
        · simp [ownedSet, hep, heq, hpq, Ne.symm hpq]
        · rw [ownedGet_cons, if_neg (by simpa using hep)] at ha
          rw [ownedGet_cons, if_neg (by simpa using heq)] at hb
          simp [ownedSet, hep, heq, ih ⟨a, ha⟩ ⟨b, hb⟩]

theorem ownedDelete_ownedSet_samekey (o : Owned) (p : Nat) (v : List Nat) :
    ownedDelete (ownedSet o p v) p = ownedDelete o p := by
  induction o with
  | nil => simp [ownedSet, ownedDelete]
  | cons e es ih =>
      by_cases hep : e.1 = p
      · rw [ownedSet_cons_pos e es p v hep,
          ownedDelete_cons_pos (p, v) es p rfl,
          ownedDelete_cons_pos e es p hep]
      · rw [ownedSet_cons_neg e es p v hep,
          ownedDelete_cons_neg e (ownedSet es p v) p hep,
          ownedDelete_cons_neg e es p hep, ih]

theorem rfoOwned_eq_id (o : Owned) (p i : Nat) (hget : ownedGet o p = none) :
    rfoOwned o p i = o := by
  unfold rfoOwned
  rw [hget]

theorem rfoOwned_eq_delete (o : Owned) (p i : Nat) (A : List Nat)
    (hget : ownedGet o p = some A) (hemp : A.filter (fun k => k != i) = []) :
    rfoOwned o p i = ownedDelete o p := by
  unfold rfoOwned
  rw [hget]
  dsimp only []
  rw [if_pos (by simp [hemp])]

theorem rfoOwned_eq_set (o : Owned) (p i : Nat) (A : List Nat)
    (hget : ownedGet o p = some A) (hne : A.filter (fun k => k != i) ≠ []) :
    rfoOwned o p i = ownedSet o p (A.filter (fun k => k != i)) := by
  unfold rfoOwned
  rw [hget]
  dsimp only []
  rw [if_neg (by simpa using hne)]

theorem ownedGet_rfo_ne (o : Owned) (p i q : Nat) (hqp : q ≠ p) :
    ownedGet (rfoOwned o p i) q = ownedGet o q := by
  unfold rfoOwned
  cases hget : ownedGet o p with
  | none => rfl
  | some acct =>
      dsimp only []
      split
      · exact ownedGet_ownedDelete_ne o p q hqp
      · exact ownedGet_ownedSet_ne o p q _ hqp

theorem rfo_rfo_samekey (o : Owned) (p i j : Nat) (A : List Nat)
    (hget : ownedGet o p = some A) :
    rfoOwned (rfoOwned o p i) p j =
      if ((A.filter (fun k => k != i)).filter (fun k => k != j)).isEmpty
      then ownedDelete o p
      else ownedSet o p ((A.filter (fun k => k != i)).filter (fun k => k != j)) := by
  by_cases h1 : A.filter (fun k => k != i) = []
  · rw [rfoOwned_eq_delete o p i A hget h1]
    rw [rfoOwned_eq_id _ p j (ownedGet_ownedDelete_self o p)]
    rw [if_pos (by simp [h1])]
  · rw [rfoOwned_eq_set o p i A hget h1]
    by_cases h2 : (A.filter (fun k => k != i)).filter (fun k => k != j) = []
    · rw [rfoOwned_eq_delete _ p j _ (ownedGet_ownedSet_self o p _) h2]
      rw [ownedDelete_ownedSet_samekey]
      rw [if_pos (by simp [h2])]
    · rw [rfoOwned_eq_set _ p j _ (ownedGet_ownedSet_self o p _) h2]
      rw [ownedSet_ownedSet]
      rw [if_neg (by simpa using h2)]

theorem rfo_comm (o : Owned) (pa ia pb ib : Nat) :
    rfoOwned (rfoOwned o pa ia) pb ib = rfoOwned (rfoOwned o pb ib) pa ia := by
  by_cases hpp : pa = pb
  · subst hpp
    cases hget : ownedGet o pa with
    | none =>
        simp only [rfoOwned_eq_id o pa ia hget, rfoOwned_eq_id o pa ib hget]
    | some A =>
        rw [rfo_rfo_samekey o pa ia ib A hget, rfo_rfo_samekey o pa ib ia A hget]
        rw [List.filter_comm]
  · have hpp2 : pb ≠ pa := fun hc => hpp hc.symm
    cases hga : ownedGet o pa with
    | none =>
        rw [rfoOwned_eq_id o pa ia hga]
        rw [rfoOwned_eq_id _ pa ia (by rw [ownedGet_rfo_ne o pb ib pa hpp]; exact hga)]
    | some Aa =>
      cases hgb : ownedGet o pb with
      | none =>
          rw [rfoOwned_eq_id o pb ib hgb]
          rw [rfoOwned_eq_id _ pb ib (by rw [ownedGet_rfo_ne o pa ia pb hpp2]; exact hgb)]
      | some Ab =>
          by_cases h1 : Aa.filter (fun k => k != ia) = []
          · rw [rfoOwned_eq_delete o pa ia Aa hga h1]
            have hgb2 : ownedGet (ownedDelete o pa) pb = some Ab := by
              rw [ownedGet_ownedDelete_ne o pa pb hpp2]
              exact hgb
            by_cases h2 : Ab.filter (fun k => k != ib) = []
            · rw [rfoOwned_eq_delete _ pb ib Ab hgb2 h2]
              rw [rfoOwned_eq_delete o pb ib Ab hgb h2]
              have hga2 : ownedGet (ownedDelete o pb) pa = some Aa := by
                rw [ownedGet_ownedDelete_ne o pb pa hpp]
                exact hga
              rw [rfoOwned_eq_delete _ pa ia Aa hga2 h1]
              exact ownedDelete_comm o pa pb
            · rw [rfoOwned_eq_set _ pb ib Ab hgb2 h2]
              rw [rfoOwned_eq_set o pb ib Ab hgb h2]
              have hga2 : ownedGet (ownedSet o pb (Ab.filter (fun k => k != ib))) pa
                  = some Aa := by
                rw [ownedGet_ownedSet_ne o pb pa _ hpp]
                exact hga
              rw [rfoOwned_eq_delete _ pa ia Aa hga2 h1]
              exact (ownedDelete_ownedSet_comm o pb pa _ hpp2).symm
          · rw [rfoOwned_eq_set o pa ia Aa hga h1]
            have hgb2 : ownedGet (ownedSet o pa (Aa.filter (fun k => k != ia))) pb
                = some Ab := by
              rw [ownedGet_ownedSet_ne o pa pb _ hpp2]
              exact hgb
            by_cases h2 : Ab.filter (fun k => k != ib) = []
            · rw [rfoOwned_eq_delete _ pb ib Ab hgb2 h2]
              rw [rfoOwned_eq_delete o pb ib Ab hgb h2]
              have hga2 : ownedGet (ownedDelete o pb) pa = some Aa := by
                rw [ownedGet_ownedDelete_ne o pb pa hpp]
                exact hga
              rw [rfoOwned_eq_set _ pa ia Aa hga2 h1]
              exact ownedDelete_ownedSet_comm o pa pb _ hpp
            · rw [rfoOwned_eq_set _ pb ib Ab hgb2 h2]
              rw [rfoOwned_eq_set o pb ib Ab hgb h2]
              have hga2 : ownedGet (ownedSet o pb (Ab.filter (fun k => k != ib))) pa
                  = some Aa := by
                rw [ownedGet_ownedSet_ne o pb pa _ hpp]
                exact hga
              rw [rfoOwned_eq_set _ pa ia Aa hga2 h1]
              exact ownedSet_comm o pa pb _ _ hpp ⟨Aa, hga⟩ ⟨Ab, hgb⟩

theorem mRemoveOne_comm (t : MState) (a b : Item) :
    mRemoveOne (mRemoveOne t a) b = mRemoveOne (mRemoveOne t b) a := by
  unfold mRemoveOne removeFromOwned
  show ({ t with
      pm := smRemove b.id (smRemove a.id t.pm)
      tm := smRemove b.id (smRemove a.id t.tm)
      owned := rfoOwned (rfoOwned t.owned a.payer a.id) b.payer b.id } : MState) =
    { t with
      pm := smRemove a.id (smRemove b.id t.pm)
      tm := smRemove a.id (smRemove b.id t.tm)
      owned := rfoOwned (rfoOwned t.owned b.payer b.id) a.payer a.id }
  rw [smRemove_comm b.id a.id t.pm, smRemove_comm b.id a.id t.tm,
    rfo_comm t.owned a.payer a.id b.payer b.id]

theorem mRemove_comm_head (rest : List Item) : ∀ (T : MState) (x : Item),
    mRemove (mRemoveOne T x) rest = mRemoveOne (mRemove T rest) x := by
  induction rest with
  | nil => intro T x; rfl
  | cons y ys ih =>
      intro T x
      show mRemove (mRemoveOne (mRemoveOne T x) y) ys =
        mRemoveOne (mRemove (mRemoveOne T y) ys) x
      rw [mRemoveOne_comm T x y]
      exact ih (mRemoveOne T y) x

/-! Single-step round-trip lemmas for the add/remove law. -/

theorem smRemove_noop (i : Nat) (l : List Item) (h : smHas i l = false) :
    smRemove i l = l := by
  rw [smHas_false_iff] at h
  unfold smRemove
  exact List.filter_eq_self.mpr (fun x hx => by simpa using h x hx)

theorem ownedSet_self (o : Owned) (p : Nat) (v : List Nat)
    (hget : ownedGet o p = some v) : ownedSet o p v = o := by
  induction o with
  | nil => simp [ownedGet] at hget
  | cons e es ih =>
      rw [ownedGet_cons] at hget
      by_cases hep : (e.1 == p) = true
      · rw [if_pos hep] at hget
        have h1 : e.1 = p := by simpa using hep
        have h2 : v = e.2 := (Option.some.inj hget).symm
        rw [ownedSet_cons_pos e es p v h1, h2, ← h1]
      · rw [if_neg hep] at hget
        rw [ownedSet_cons_neg e es p v (by simpa using hep), ih hget]

theorem rfoOwned_noop (o : Owned) (p i : Nat) (hown : ownedHas o p i = false)
    (hhyg : ∀ e ∈ o, e.2 ≠ []) : rfoOwned o p i = o := by
  cases hget : ownedGet o p with
  | none => exact rfoOwned_eq_id o p i hget
  | some acct =>
      have hni : i ∉ acct := by
        unfold ownedHas at hown
        rw [hget] at hown
        dsimp only [] at hown
        rw [natContains_false_iff] at hown
        exact hown
      have hfilt : acct.filter (fun k => k != i) = acct :=
        List.filter_eq_self.mpr (fun k hk => by
          rw [bne_iff_ne]
          intro hc
          exact hni (hc ▸ hk))
      rw [rfoOwned_eq_set o p i acct hget
        (by rw [hfilt]; exact hhyg (p, acct) (ownedGet_mem hget))]
      rw [hfilt]
      exact ownedSet_self o p acct hget

theorem mRemoveOne_noop (t : MState) (x : Item)
    (hpm : smHas x.id t.pm = false) (htm : smHas x.id t.tm = false)
    (hown : ownedHas t.owned x.payer x.id = false) (hhyg : hygOK t) :
    mRemoveOne t x = t := by
  unfold mRemoveOne removeFromOwned
  show ({ t with
      pm := smRemove x.id t.pm
      tm := smRemove x.id t.tm
      owned := rfoOwned t.owned x.payer x.id } : MState) = t
  rw [smRemove_noop x.id t.pm hpm, smRemove_noop x.id t.tm htm,
    rfoOwned_noop t.owned x.payer x.id hown hhyg]

theorem tm_not_has {s : MState} (htm : ∀ y ∈ s.tm, smHas y.id s.pm = true)
    {i : Nat} (hfresh : smHas i s.pm = false) : smHas i s.tm = false := by
  cases hc : smHas i s.tm with
  | false => rfl
  | true =>
      exfalso
      rw [smHas_true_iff] at hc
      obtain ⟨y, hy, hyi⟩ := hc
      have h2 := htm y hy
      rw [hyi, hfresh] at h2
      exact absurd h2 (by simp)

theorem owned_not_has {s : MState} (hsub : ownedSubOK s) {q i : Nat}
    (hfresh : smHas i s.pm = false) : ownedHas s.owned q i = false := by
  cases hc : ownedHas s.owned q i with
  | false => rfl
  | true =>
      exfalso
      unfold ownedHas at hc
      cases hget : ownedGet s.owned q with
      | none => rw [hget] at hc; simp at hc
      | some acct =>
          rw [hget] at hc
          dsimp only [] at hc
          rw [natContains_true_iff] at hc
          have h2 := hsub (q, acct) (ownedGet_mem hget) i hc
          rw [hfresh] at h2
          exact absurd h2 (by simp)

theorem mem_smInsert (sc : Item → Nat) (x y : Item) (l : List Item) :
    y ∈ smInsert sc x l ↔ y = x ∨ y ∈ l := by
  induction l with
  | nil => simp [smInsert]
  | cons z zs ih =>
      unfold smInsert
      split
      · simp [List.mem_cons]
      · rw [List.mem_cons, ih, List.mem_cons]
        tauto

theorem mem_idsAdd {i j : Nat} {A : List Nat} (h : i ∈ idsAdd j A) :
    i = j ∨ i ∈ A := by
  unfold idsAdd at h
  split at h
  · exact Or.inr h
  · rcases List.mem_cons.mp h with rfl | h2
    · exact Or.inl rfl
    · exact Or.inr h2

theorem smRemove_smInsert (sc : Item → Nat) (x : Item) :
    ∀ (l : List Item), (∀ z ∈ l, z.id ≠ x.id) →
      smRemove x.id (smInsert sc x l) = l := by
  intro l
  induction l with
  | nil =>
      intro _
      simp [smInsert, smRemove]
  | cons y ys ih =>
      intro h
      have hy : y.id ≠ x.id := h y (List.mem_cons_self y ys)
      unfold smInsert
      split
      · unfold smRemove
        rw [List.filter_cons, if_neg (by simp)]
        exact List.filter_eq_self.mpr (fun z hz => by simpa using h z hz)
      · show smRemove x.id (y :: smInsert sc x ys) = y :: ys
        unfold smRemove
        rw [List.filter_cons, if_pos (by simpa using hy)]
        have h2 := ih (fun z hz => h z (List.mem_cons_of_mem _ hz))
        unfold smRemove at h2
        rw [h2]

theorem ownedDelete_ownedSet_fresh (o : Owned) (p : Nat) (v : List Nat)
    (hget : ownedGet o p = none) : ownedDelete (ownedSet o p v) p = o := by
  induction o with
  | nil => simp [ownedSet, ownedDelete]
  | cons e es ih =>
      rw [ownedGet_cons] at hget
      by_cases hep : (e.1 == p) = true
      · rw [if_pos hep] at hget
        simp at hget
      · rw [if_neg hep] at hget
        have hep2 : e.1 ≠ p := by simpa using hep
        rw [ownedSet_cons_neg e es p v hep2,
          ownedDelete_cons_neg e (ownedSet es p v) p hep2, ih hget]

theorem rfo_roundTrip_existing (o : Owned) (p i : Nat) (acct0 : List Nat)
    (hget : ownedGet o p = some acct0) (hnotin : i ∉ acct0)
    (hne2 : acct0 ≠ []) :
    rfoOwned (ownedSet o p (idsAdd i acct0)) p i = o := by
  have hidsAdd : idsAdd i acct0 = i :: acct0 := by
    unfold idsAdd
    rw [if_neg (show ¬ (acct0.contains i = true) from
      fun hc => hnotin ((natContains_true_iff acct0 i).mp hc))]
  rw [hidsAdd]
  have hfilt : (i :: acct0).filter (fun k => k != i) = acct0 := by
    rw [List.filter_cons, if_neg (by simp)]
    exact List.filter_eq_self.mpr (fun k hk => by
      rw [bne_iff_ne]
      intro hc
      exact hnotin (hc ▸ hk))
  rw [rfoOwned_eq_set (ownedSet o p (i :: acct0)) p i (i :: acct0)
    (ownedGet_ownedSet_self o p _) (by rw [hfilt]; exact hne2)]
  rw [hfilt, ownedSet_ownedSet]
  exact ownedSet_self o p acct0 hget

theorem addOneEvict_noop (t : MState) (h : ¬ (t.maxSize < t.pm.length)) :
    addOneEvict t = t := by
  unfold addOneEvict
  rw [if_neg h]

/-- The state an eviction-free admission of a fresh item produces: both
queues gain the item and the payer's owned set gains its id (the optimistic
empty set created for a new payer is immediately overwritten, which
`ownedSet_ownedSet` collapses).  `addOne_cases` proves `addOne` equal to
either the unchanged state or this one. -/
def addAdmitted (s : MState) (x : Item) : MState :=
  { s with
    pm := smInsert priceScore x s.pm
    tm := smInsert timeScore x s.tm
    owned := ownedSet s.owned x.payer
      (idsAdd x.id ((ownedGet s.owned x.payer).getD [])) }

theorem addOne_cases (s : MState) (x : Item) (hmp : 1 ≤ s.maxPayerSize)
    (hnoev : addOneEvicts s x = false) :
    addOne s x = s ∨
    ((s.leasedItems.getD []).contains x.id = false ∧
      addOne s x = addAdmitted s x) := by
  unfold addOne
  split
  · exact Or.inl rfl
  split
  · exact Or.inl rfl
  rename_i hL hdup
  have hL2 : (s.leasedItems.getD []).contains x.id = false := by simpa using hL
  have hfresh : smHas x.id s.pm = false := by simpa using hdup
  unfold addOneAdmit addPayerInit
  cases hget : ownedGet s.owned x.payer with
  | some acct0 =>
      dsimp only [Option.getD]
      split
      · exact Or.inl rfl
      · rename_i hskip
        refine Or.inr ⟨hL2, ?_⟩
        have hlt : ¬ (s.maxSize < s.pm.length + 1) := by
          unfold addOneEvicts at hnoev
          rw [hL2, hfresh, hget] at hnoev
          simp only [Bool.not_false, Bool.true_and, Option.getD_some] at hnoev
          have hC : (s.exemptPayers.contains x.payer ||
              !(acct0.length == s.maxPayerSize)) = true := by
            by_cases he : s.exemptPayers.contains x.payer = true
            · rw [he]
              simp
            · have he2 : s.exemptPayers.contains x.payer = false := by
                simpa using he
              rw [he2] at hskip
              simp only [Bool.not_false, Bool.true_and] at hskip
              rw [he2]
              simp only [Bool.false_or]
              simpa using hskip
          rw [hC, Bool.true_and] at hnoev
          exact of_decide_eq_false hnoev
        have hnoev3 : ¬ (({ s with
            pm := smInsert priceScore x s.pm
            tm := smInsert timeScore x s.tm
            owned := ownedSet s.owned x.payer (idsAdd x.id acct0) } : MState).maxSize <
          ({ s with
            pm := smInsert priceScore x s.pm
            tm := smInsert timeScore x s.tm
            owned := ownedSet s.owned x.payer (idsAdd x.id acct0) } : MState).pm.length) := by
          show ¬ (s.maxSize < (smInsert priceScore x s.pm).length)
          rw [smInsert_length]
          exact hlt
        rw [addOneEvict_noop _ hnoev3]
        unfold addAdmitted
        rw [hget]
        rfl
  | none =>
      dsimp only [Option.getD]
      split
      · rename_i hskip
        exfalso
        simp only [List.length_nil, Bool.and_eq_true, beq_iff_eq] at hskip
        omega
      · rename_i hskip
        refine Or.inr ⟨hL2, ?_⟩
        have hlt : ¬ (s.maxSize < s.pm.length + 1) := by
          unfold addOneEvicts at hnoev
          rw [hL2, hfresh, hget] at hnoev
          simp only [Bool.not_false, Bool.true_and, Option.getD_none,
            List.length_nil] at hnoev
          have h0 : ((0 : Nat) == s.maxPayerSize) = false := by
            rw [beq_eq_false_iff_ne]
            omega
          rw [h0] at hnoev
          simp only [Bool.not_false, Bool.or_true, Bool.true_and] at hnoev
          exact of_decide_eq_false hnoev
        have hnoev3 : ¬ (({ s with
            pm := smInsert priceScore x s.pm
            tm := smInsert timeScore x s.tm
            owned := ownedSet (ownedSet s.owned x.payer []) x.payer
              (idsAdd x.id []) } : MState).maxSize <
          ({ s with
            pm := smInsert priceScore x s.pm
            tm := smInsert timeScore x s.tm
            owned := ownedSet (ownedSet s.owned x.payer []) x.payer
              (idsAdd x.id []) } : MState).pm.length) := by
          show ¬ (s.maxSize < (smInsert priceScore x s.pm).length)
          rw [smInsert_length]
          exact hlt
        rw [addOneEvict_noop _ hnoev3]
        unfold addAdmitted
        rw [hget, ownedSet_ownedSet]
        rfl

theorem addOne_wf (s : MState) (x : Item)
    (htm : ∀ y ∈ s.tm, smHas y.id s.pm = true)
    (hsub : ownedSubOK s) (hhyg : hygOK s) (hlease : leaseOK s)
    (hmp : 1 ≤ s.maxPayerSize) (hfresh : smHas x.id s.pm = false)
    (hnoev : addOneEvicts s x = false) :
    (∀ y ∈ (addOne s x).tm, smHas y.id (addOne s x).pm = true) ∧
    ownedSubOK (addOne s x) ∧ hygOK (addOne s x) ∧ leaseOK (addOne s x) ∧
    1 ≤ (addOne s x).maxPayerSize ∧
    (∀ i, smHas i (addOne s x).pm = true → i = x.id ∨ smHas i s.pm = true) := by
  rcases addOne_cases s x hmp hnoev with heq | ⟨hL, heq⟩
  · rw [heq]
    exact ⟨htm, hsub, hhyg, hlease, hmp, fun i hi => Or.inr hi⟩
  · rw [heq]
    unfold addAdmitted
    refine ⟨?_, ?_, ?_, ?_, hmp, ?_⟩
    · intro y hy
      rcases (mem_smInsert timeScore x y s.tm).mp hy with rfl | hy2
      · rw [smHas_smInsert]
        simp
      · rw [smHas_smInsert, htm y hy2]
        simp
    · intro e he i hi
      rcases mem_ownedSet he with rfl | hmem
      · dsimp only [] at hi
        rcases mem_idsAdd hi with rfl | hiA
        · rw [smHas_smInsert]
          simp
        · cases hget : ownedGet s.owned x.payer with
          | none =>
              rw [hget] at hiA
              simp at hiA
          | some A0 =>
              rw [hget] at hiA
              have h2 := hsub (x.payer, A0) (ownedGet_mem hget) i (by simpa using hiA)
              rw [smHas_smInsert, h2]
              simp
      · have h2 := hsub e hmem i hi
        rw [smHas_smInsert, h2]
        simp
    · intro e he
      rcases mem_ownedSet he with rfl | hmem
      · exact idsAdd_ne_nil _ _
      · exact hhyg e hmem
    · intro i hi
      have hxi : i ≠ x.id := by
        intro hc
        have h2 : (s.leasedItems.getD []).contains i = true :=
          (natContains_true_iff (s.leasedItems.getD []) i).mpr hi
        rw [hc, hL] at h2
        exact absurd h2 (by simp)
      rw [smHas_smInsert, hlease i hi]
      simp only [Bool.or_false]
      rw [beq_eq_false_iff_ne]
      exact fun hc => hxi hc.symm
    · intro i hi
      rw [smHas_smInsert] at hi
      cases hxi : (x.id == i) with
      | true => exact Or.inl (Eq.symm (by simpa using hxi))
      | false =>
          rw [hxi] at hi
          simp only [Bool.false_or] at hi
          exact Or.inr hi

theorem addOne_roundTrip (s : MState) (x : Item)
    (htm : ∀ y ∈ s.tm, smHas y.id s.pm = true)
    (hsub : ownedSubOK s) (hhyg : hygOK s)
    (hmp : 1 ≤ s.maxPayerSize) (hfresh : smHas x.id s.pm = false)
    (hnoev : addOneEvicts s x = false) :
    mRemoveOne (addOne s x) x = s := by
  have htm2 : smHas x.id s.tm = false := tm_not_has htm hfresh
  have hown2 : ownedHas s.owned x.payer x.id = false := owned_not_has hsub hfresh
  rcases addOne_cases s x hmp hnoev with heq | ⟨hL, heq⟩
  · rw [heq]
    exact mRemoveOne_noop s x hfresh htm2 hown2 hhyg
  · rw [heq]
    unfold addAdmitted mRemoveOne removeFromOwned
    show ({ s with
        pm := smRemove x.id (smInsert priceScore x s.pm)
        tm := smRemove x.id (smInsert timeScore x s.tm)
        owned := rfoOwned (ownedSet s.owned x.payer
          (idsAdd x.id ((ownedGet s.owned x.payer).getD []))) x.payer x.id } : MState) = s
    rw [smRemove_smInsert priceScore x s.pm
      (by rw [smHas_false_iff] at hfresh; exact hfresh)]
    rw [smRemove_smInsert timeScore x s.tm
      (by rw [smHas_false_iff] at htm2; exact htm2)]
    cases hget : ownedGet s.owned x.payer with
    | some A0 =>
        have hnotin : x.id ∉ A0 := by
          intro hc
          have h2 := hsub (x.payer, A0) (ownedGet_mem hget) x.id hc
          rw [hfresh] at h2
          exact absurd h2 (by simp)
        rw [show ((some A0).getD ([] : List Nat)) = A0 from rfl]
        rw [rfo_roundTrip_existing s.owned x.payer x.id A0 hget hnotin
          (hhyg (x.payer, A0) (ownedGet_mem hget))]
    | none =>
        rw [show ((none : Option (List Nat)).getD ([] : List Nat)) = [] from rfl]
        rw [show idsAdd x.id ([] : List Nat) = [x.id] from by simp [idsAdd]]
        rw [rfoOwned_eq_delete (ownedSet s.owned x.payer [x.id]) x.payer x.id [x.id]
          (ownedGet_ownedSet_self s.owned x.payer _) (by simp)]
        rw [ownedDelete_ownedSet_fresh s.owned x.payer [x.id] hget]

theorem addOne_dup_noop (s : MState) (x : Item)
    (h : smHas x.id s.pm = true) : addOne s x = s := by
  unfold addOne
  split
  · rfl
  · simp [h]

theorem addOne_pm_mono (s : MState) (x : Item) (i : Nat)
    (hmp : 1 ≤ s.maxPayerSize) (hnoev : addOneEvicts s x = false)
    (hi : smHas i s.pm = true) : smHas i (addOne s x).pm = true := by
  rcases addOne_cases s x hmp hnoev with heq | ⟨_, heq⟩
  · rw [heq]
    exact hi
  · rw [heq]
    show smHas i (smInsert priceScore x s.pm) = true
    rw [smHas_smInsert, hi]
    simp

theorem madd_skip_dups (rest : List Item) : ∀ (i : Nat) (T : MState),
    smHas i T.pm = true → 1 ≤ T.maxPayerSize → addEvictFree T rest = true →
    madd T rest = madd T (rest.filter (fun y => y.id != i)) ∧
    addEvictFree T (rest.filter (fun y => y.id != i)) = true := by
  induction rest with
  | nil =>
      intro i T _ _ _
      exact ⟨rfl, rfl⟩
  | cons y ys ihy =>
      intro i T hi hmp hev
      have hev1 : addOneEvicts T y = false ∧
          addEvictFree (addOne T y) ys = true := by
        unfold addEvictFree at hev
        simp only [Bool.and_eq_true, Bool.not_eq_true'] at hev
        exact hev
      by_cases hyi : y.id = i
      · have hyres : smHas y.id T.pm = true := by
          rw [hyi]
          exact hi
        have hskip : addOne T y = T := addOne_dup_noop T y hyres
        have hfilt : (y :: ys).filter (fun z => z.id != i) =
            ys.filter (fun z => z.id != i) := by
          simp [List.filter_cons, hyi]
        rw [hfilt]
        have hys : addEvictFree T ys = true := by
          rw [hskip] at hev1
          exact hev1.2
        have hih := ihy i T hi hmp hys
        refine ⟨?_, hih.2⟩
        show madd (addOne T y) ys = madd T (ys.filter (fun z => z.id != i))
        rw [hskip]
        exact hih.1
      · have hfilt : (y :: ys).filter (fun z => z.id != i) =
            y :: ys.filter (fun z => z.id != i) := by
          simp [List.filter_cons, hyi]
        rw [hfilt]
        have hi2 : smHas i (addOne T y).pm = true :=
          addOne_pm_mono T y i hmp hev1.1 hi
        have hmp2 : 1 ≤ (addOne T y).maxPayerSize := by
          rw [addOne_maxPayerSize]
          exact hmp
        have hih := ihy i (addOne T y) hi2 hmp2 hev1.2
        refine ⟨hih.1, ?_⟩
        have hstep : addEvictFree T (y :: ys.filter (fun z => z.id != i)) =
            (!addOneEvicts T y &&
              addEvictFree (addOne T y) (ys.filter (fun z => z.id != i))) := rfl
        rw [hstep, hev1.1, hih.2]
        rfl

theorem mRemove_append (T : MState) (l1 l2 : List Item) :
    mRemove T (l1 ++ l2) = mRemove (mRemove T l1) l2 := by
  unfold mRemove
  rw [List.foldl_append]

theorem mRemove_perm : ∀ {l l' : List Item}, l.Perm l' →
    ∀ (T : MState), mRemove T l = mRemove T l' := by
  intro l l' h
  induction h with
  | nil =>
      intro T
      rfl
  | cons a _ ih =>
      intro T
      exact ih (mRemoveOne T a)
  | swap x y l =>
      intro T
      show mRemove (mRemoveOne (mRemoveOne T y) x) l =
        mRemove (mRemoveOne (mRemoveOne T x) y) l
      rw [mRemoveOne_comm T y x]
  | trans _ _ ih1 ih2 =>
      intro T
      rw [ih1 T, ih2 T]

theorem filter_split_perm (p : Item → Bool) (l : List Item) :
    l.Perm (l.filter p ++ l.filter (fun a => !p a)) := by
  induction l with
  | nil => exact List.Perm.refl []
  | cons a as ih =>
      by_cases hp : p a = true
      · have h1 : (a :: as).filter p = a :: as.filter p := by
          simp [List.filter_cons, hp]
        have h2 : (a :: as).filter (fun x => !p x) =
            as.filter (fun x => !p x) := by
          simp [List.filter_cons, hp]
        rw [h1, h2]
        exact ih.cons a
      · have hp2 : p a = false := by simpa using hp
        have h1 : (a :: as).filter p = as.filter p := by
          simp [List.filter_cons, hp2]
        have h2 : (a :: as).filter (fun x => !p x) =
            a :: as.filter (fun x => !p x) := by
          simp [List.filter_cons, hp2]
        rw [h1, h2]
        exact (ih.cons a).trans List.perm_middle.symm

theorem mRemove_noop (l : List Item) : ∀ (s : MState),
    (∀ y ∈ s.tm, smHas y.id s.pm = true) → ownedSubOK s → hygOK s →
    (∀ z ∈ l, smHas z.id s.pm = false) →
    mRemove s l = s := by
  induction l with
  | nil =>
      intro s _ _ _ _
      rfl
  | cons z zs ihz =>
      intro s htm hsub hhyg hfr
      have hz : smHas z.id s.pm = false := hfr z (List.mem_cons_self z zs)
      show mRemove (mRemoveOne s z) zs = s
      rw [mRemoveOne_noop s z hz (tm_not_has htm hz) (owned_not_has hsub hz) hhyg]
      exact ihz s htm hsub hhyg (fun w hw => hfr w (List.mem_cons_of_mem z hw))

theorem round_trip_main : ∀ (n : Nat) (xs : List Item) (s : MState),
    xs.length ≤ n →
    (∀ y ∈ s.tm, smHas y.id s.pm = true) → ownedSubOK s → hygOK s → leaseOK s →
    1 ≤ s.maxPayerSize →
    (∀ x ∈ xs, smHas x.id s.pm = false) →
    addEvictFree s xs = true →
    mRemove (madd s xs) xs = s := by
  intro n
  induction n with
  | zero =>
      intro xs s hlen _ _ _ _ _ _ _
      cases xs with
      | nil => rfl
      | cons x rest => simp at hlen
  | succ n ih =>
      intro xs s hlen htm hsub hhyg hlease hmp hfresh hev
      cases xs with
      | nil => rfl
      | cons x rest =>
          have hlen2 : rest.length ≤ n := by
            simp only [List.length_cons] at hlen
            omega
          have hev1 : addOneEvicts s x = false ∧
              addEvictFree (addOne s x) rest = true := by
            unfold addEvictFree at hev
            simp only [Bool.and_eq_true, Bool.not_eq_true'] at hev
            exact hev
          have hfx : smHas x.id s.pm = false := hfresh x (List.mem_cons_self x rest)
          rcases addOne_cases s x hmp hev1.1 with heqA | ⟨hL, heqB⟩
          · show mRemove (mRemoveOne (madd (addOne s x) rest) x) rest = s
            rw [heqA]
            rw [mRemove_comm_head rest (madd s rest) x]
            have hevr : addEvictFree s rest = true := by
              rw [heqA] at hev1
              exact hev1.2
            have hIH := ih rest s hlen2 htm hsub hhyg hlease hmp
              (fun y hy => hfresh y (List.mem_cons_of_mem x hy)) hevr
            rw [hIH]
            exact mRemoveOne_noop s x hfx (tm_not_has htm hfx)
              (owned_not_has hsub hfx) hhyg
          · have hwf := addOne_wf s x htm hsub hhyg hlease hmp hfx hev1.1
            have hxin : smHas x.id (addOne s x).pm = true := by
              rw [heqB]
              show smHas x.id (smInsert priceScore x s.pm) = true
              rw [smHas_smInsert]
              simp
            have hmp2 : 1 ≤ (addOne s x).maxPayerSize := by
              rw [addOne_maxPayerSize]
              exact hmp
            have hskip := madd_skip_dups rest x.id (addOne s x) hxin hmp2 hev1.2
            show mRemove (madd (addOne s x) rest) (x :: rest) = s
            rw [hskip.1]
            have hperm : (x :: rest).Perm
                (rest.filter (fun y => y.id != x.id) ++
                  (x :: rest.filter (fun y => !(y.id != x.id)))) :=
              ((filter_split_perm (fun y => y.id != x.id) rest).cons x).trans
                List.perm_middle.symm
            rw [mRemove_perm hperm]
            rw [mRemove_append]
            have hfresh2 : ∀ y ∈ rest.filter (fun y => y.id != x.id),
                smHas y.id (addOne s x).pm = false := by
              intro y hy
              have hyne : y.id ≠ x.id := by
                have h2 := List.of_mem_filter hy
                simpa using h2
              have hyfr : smHas y.id s.pm = false :=
                hfresh y (List.mem_cons_of_mem x (List.mem_of_mem_filter hy))
              cases hc : smHas y.id (addOne s x).pm with
              | false => rfl
              | true =>
                  exfalso
                  rcases hwf.2.2.2.2.2 y.id hc with hid | hid
                  · exact hyne hid
                  · rw [hyfr] at hid
                    exact absurd hid (by simp)
            have hlenNe : (rest.filter (fun y => y.id != x.id)).length ≤ n :=
              le_trans (List.length_filter_le _ rest) hlen2
            have hIH := ih (rest.filter (fun y => y.id != x.id)) (addOne s x)
              hlenNe hwf.1 hwf.2.1 hwf.2.2.1 hwf.2.2.2.1 hwf.2.2.2.2.1
              hfresh2 hskip.2
            rw [hIH]
            show mRemove (mRemoveOne (addOne s x) x)
              (rest.filter (fun y => !(y.id != x.id))) = s
            rw [addOne_roundTrip s x htm hsub hhyg hmp hfx hev1.1]
            refine mRemove_noop _ s htm hsub hhyg ?_
            intro z hz
            have h2 := List.of_mem_filter hz
            have hz2 : z.id = x.id := by
              simpa using h2
            rw [hz2]
            exact hfx

/-- The resident item of the round-trip counterexample. -/
def c8Res : Item := ⟨1, 3, 7, 50⟩

/-- An item sharing `c8Res`'s id but with a different price. -/
def c8Dup : Item := ⟨1, 3, 9, 60⟩

/-- A consistent one-item mempool holding `c8Res`. -/
def c8S : MState := ⟨10, 5, [c8Res], [c8Res], [(3, [1])], [], none⟩

/-- A batch item sharing `capLow`'s id under another payer: fresh for `c8S`
but a duplicate within its own batch, so `add` skips it. -/
def c8Shadow : Item := ⟨2, 13, 8, 90⟩

/-! ### Claim C8 -/

/-- C8 counterexample: the round-trip law `add(xs); remove(xs) = id` with
only the no-eviction proviso fails when an item of xs duplicates a resident
id: on `c8S`, adding `[c8Dup]` is a silent duplicate skip and no eviction
occurs, but the subsequent remove deletes the resident `c8Res`, so the state
changes. -/
theorem C8_counterexample_duplicate_breaks_round_trip :
    addEvictFree c8S [c8Dup] = true ∧
    mRemove (madd c8S [c8Dup]) [c8Dup] ≠ c8S := by
  constructor
  · decide
  · decide

/-- C8 amended: `add(xs); remove(xs)` leaves the mempool unchanged provided
that no eviction occurs during the add, no id of xs is already resident, and
the state satisfies the mempool invariants (time-queue ids are price-queue
ids, owned ids are price-queue ids, owned hygiene, lease disjointness, and a
positive per-payer cap, as reachable states with `maxPayerSize ≥ 1` do).
Repeated ids inside xs are allowed: a later occurrence of an id admitted
earlier in the batch is skipped as a duplicate, and its removal is absorbed
by the batch's own removal of that id. -/
theorem C8_add_remove_round_trip (s : MState) (xs : List Item)
    (h1 : ∀ y ∈ s.tm, smHas y.id s.pm = true) (h2 : ownedSubOK s)
    (h3 : hygOK s) (h4 : leaseOK s) (h5 : 1 ≤ s.maxPayerSize)
    (h6 : ∀ x ∈ xs, smHas x.id s.pm = false)
    (h7 : addEvictFree s xs = true) :
    mRemove (madd s xs) xs = s :=
  round_trip_main xs.length xs s (Nat.le_refl xs.length) h1 h2 h3 h4 h5 h6 h7

/-- Witness for C8 at a concrete input: a one-item mempool and a three-item
batch over two payers in which the second item duplicates the first's id, so
it is skipped on add and its removal is a no-op. -/
theorem C8_add_remove_round_trip_witness :
    (∀ y ∈ c8S.tm, smHas y.id c8S.pm = true) ∧ ownedSubOK c8S ∧ hygOK c8S ∧
    leaseOK c8S ∧ 1 ≤ c8S.maxPayerSize ∧
    (∀ x ∈ [capLow, c8Shadow, s6P5], smHas x.id c8S.pm = false) ∧
    addEvictFree c8S [capLow, c8Shadow, s6P5] = true ∧
    mRemove (madd c8S [capLow, c8Shadow, s6P5]) [capLow, c8Shadow, s6P5] = c8S :=
  ⟨by decide, by decide, by decide, by decide, by decide, by decide, by decide,
   C8_add_remove_round_trip c8S [capLow, c8Shadow, s6P5] (by decide) (by decide)
     (by decide) (by decide) (by decide) (by decide) (by decide)⟩
